import Mathlib

/-!
# Banker's algorithm ledger (`Banker's.c`)

A shallow embedding of the resource ledger of `Banker's.c` and of its safety
simulation, followed by theorems about it.

Modelling conventions.

* A C `int` is a mathematical integer (`Int`); signed overflow, which is
  undefined in C, is outside the model.
* An `int*` array is a `List Int`, an `int**` matrix a `List (List Int)` of
  rows.  Every read and write goes through `rd`/`rd2`/`upd`/`upd2`, which give
  `none` when the index is outside the array: `none` as the result of a function
  stands for an out-of-bounds memory access (undefined behaviour in C).
* Loop counters that run over `0 .. n-1` are natural numbers; indices that come
  from the caller are `Int`, as in the source.
* The mutex is not modelled: every call runs alone, from start to end.
* `calloc`/`malloc` never fail.  A block obtained from them has the number of
  bytes that was asked for; the sizes of an `int` and of a pointer to `int` are
  parameters (`Sizes`), and storing a pointer beyond the bytes of its block is an
  out-of-bounds access like any other.
-/

namespace Banker

/-! ## Memory primitives -/

/-- Read `a[i]` for a caller-supplied (signed) index. -/
def rd (a : List Int) (i : Int) : Option Int :=
  if i < 0 then none else a[i.toNat]?

/-- Read `m[p][r]` for loop counters. -/
def rd2N (m : List (List Int)) (p r : Nat) : Option Int :=
  match m[p]? with
  | none => none
  | some row => row[r]?

/-- Read `m[p][r]` for caller-supplied (signed) indices. -/
def rd2 (m : List (List Int)) (p r : Int) : Option Int :=
  if p < 0 ∨ r < 0 then none else rd2N m p.toNat r.toNat

/-- Read-modify-write `a[i] = f (a[i])` for a loop counter. -/
def updN (a : List Int) (i : Nat) (f : Int → Int) : Option (List Int) :=
  match a[i]? with
  | none => none
  | some v => some (a.set i (f v))

/-- Read-modify-write `a[i] = f (a[i])` for a signed index. -/
def upd (a : List Int) (i : Int) (f : Int → Int) : Option (List Int) :=
  if i < 0 then none else updN a i.toNat f

/-- Read-modify-write `m[p][r] = f (m[p][r])` for loop counters. -/
def upd2N (m : List (List Int)) (p r : Nat) (f : Int → Int) : Option (List (List Int)) :=
  match m[p]? with
  | none => none
  | some row =>
    match updN row r f with
    | none => none
    | some row' => some (m.set p row')

/-- Read-modify-write `m[p][r] = f (m[p][r])` for signed indices. -/
def upd2 (m : List (List Int)) (p r : Int) (f : Int → Int) : Option (List (List Int)) :=
  if p < 0 ∨ r < 0 then none else upd2N m p.toNat r.toNat f

/-- Store `a[i] = v` into an array of process indices. -/
def storeN (a : List Nat) (i : Nat) (v : Nat) : Option (List Nat) :=
  if i < a.length then some (a.set i v) else none

/-- The loop `for (i = start; i < start + n; ++i) body`, threading the state
`s`; a fault in the body aborts the loop. -/
def forRange {σ : Type} (body : Nat → σ → Option σ) : Nat → Nat → σ → Option σ
  | 0, _, s => some s
  | n + 1, i, s =>
    match body i s with
    | none => none
    | some s' => forRange body n (i + 1) s'

/-! ## The ledger -/

/-- The ledger, `struct BankerData` without its mutex. -/
structure BankerData where
  processCount : Int
  availableResourcesCount : Int
  maxResourcesArray : List Int
  availableResourcesArray : List Int
  resourcesDemandMatrix : List (List Int)
  resourcesAllocatedMatrix : List (List Int)
  resourcesRequiredMatrix : List (List Int)
deriving DecidableEq

/-! ## `Banker_getSafeSequence` -/

/-- Local variables of `Banker_getSafeSequence`. -/
structure Sim where
  safeSequence : List Nat
  safeSequenceMarker : Nat
  remainingProcesses : Int
  isStatePseudoSafe : Int
  hasFinished : List Int
  availableResourcesArray : List Int
deriving DecidableEq

/-- The scan `for (r = start; r < start + n; ++r) if (Required[p][r] > work[r]) break;`
(lines 223-230): the value of `r` when the loop is left. -/
def needScan (banker : BankerData) (work : List Int) (p : Nat) : Nat → Nat → Option Nat
  | 0, r => some r
  | n + 1, r =>
    match rd2N banker.resourcesRequiredMatrix p r with
    | none => none
    | some need =>
      match work[r]? with
      | none => none
      | some av => if need > av then some r else needScan banker work p n (r + 1)

/-- Body of the loop of lines 237-240: `work[r] += Allocated[p][r]`. -/
def giveBack (banker : BankerData) (p : Nat) (r : Nat) (work : List Int) : Option (List Int) :=
  match rd2N banker.resourcesAllocatedMatrix p r with
  | none => none
  | some a => updN work r (fun w => w + a)

/-- Body of the `for (p ...)` loop (lines 219-253) for one process `p`. -/
def simulateProcess (banker : BankerData) (p : Nat) (s : Sim) : Option Sim :=
  match s.hasFinished[p]? with
  | none => none
  | some fin =>
    if fin ≠ 1 then
      match needScan banker s.availableResourcesArray p banker.availableResourcesCount.toNat 0 with
      | none => none
      | some r =>
        if (r : Int) = banker.availableResourcesCount then
          match forRange (giveBack banker p) banker.availableResourcesCount.toNat 0
              s.availableResourcesArray with
          | none => none
          | some work =>
            match storeN s.safeSequence s.safeSequenceMarker p with
            | none => none
            | some seq =>
              some { safeSequence := seq
                     safeSequenceMarker := s.safeSequenceMarker + 1
                     remainingProcesses := s.remainingProcesses - 1
                     isStatePseudoSafe := 1
                     hasFinished := s.hasFinished.set p 1
                     availableResourcesArray := work }
        else some s
    else some s

/-- The `while (remainingProcesses > 0)` loop of lines 214-257.  The first
argument bounds the number of passes; `none` is returned when it is used up
(or when a pass faults). -/
def simulation (banker : BankerData) : Nat → Sim → Option Sim
  | 0, s => if s.remainingProcesses > 0 then none else some s
  | fuel + 1, s =>
    if s.remainingProcesses > 0 then
      match forRange (simulateProcess banker) banker.processCount.toNat 0
          { s with isStatePseudoSafe := 0 } with
      | none => none
      | some s' => if s'.isStatePseudoSafe ≠ 1 then some s' else simulation banker fuel s'
    else some s

/-- Body of the copy loop of lines 209-210: `work[r] = banker->Available[r]`. -/
def copyAvailable (banker : BankerData) (r : Nat) (work : List Int) : Option (List Int) :=
  match banker.availableResourcesArray[r]? with
  | none => none
  | some v => updN work r (fun _ => v)

/-- Local variables of `Banker_getSafeSequence` when the simulation starts
(lines 193-210).  The `malloc`ed work array is taken zero-filled; every cell
of it is overwritten by the copy loop. -/
def simInit (banker : BankerData) : Option Sim :=
  match forRange (copyAvailable banker) banker.availableResourcesCount.toNat 0
      (List.replicate banker.availableResourcesCount.toNat 0) with
  | none => none
  | some work =>
    some { safeSequence := List.replicate banker.processCount.toNat 0
           safeSequenceMarker := 0
           remainingProcesses := banker.processCount
           isStatePseudoSafe := 0
           hasFinished := List.replicate banker.processCount.toNat 0
           availableResourcesArray := work }

/-- The function `Banker_getSafeSequence`: the outer `none` is a memory fault, `some none`
is the `NULL` result (no safe sequence), `some (some s)` the returned array.
Each pass that does not end the loop lowers `remainingProcesses`, so
`processCount` passes are enough (`simulation_total`). -/
def Banker_getSafeSequence (banker : BankerData) : Option (Option (List Nat)) :=
  match simInit banker with
  | none => none
  | some s0 =>
    match simulation banker banker.processCount.toNat s0 with
    | none => none
    | some s => if s.remainingProcesses > 0 then some none else some (some s.safeSequence)

/-! ## The allocation service -/

/-- The function `Banker_requestResource`: return code and ledger after the call. -/
def Banker_requestResource (banker : BankerData) (processIndex resourceIndex resourceCount : Int) :
    Option (Int × BankerData) :=
  if processIndex < 0 ∨ processIndex > banker.processCount - 1 then some (-2, banker) else
  let returnCode : Int := 1
  let returnCode : Int :=
    if resourceIndex < 0 ∨ resourceIndex > banker.availableResourcesCount - 1 then -1
    else returnCode
  match rd2 banker.resourcesAllocatedMatrix processIndex resourceIndex,
        rd2 banker.resourcesDemandMatrix processIndex resourceIndex with
  | some allocated, some demand =>
    let returnCode : Int :=
      if resourceCount + allocated > demand ∨ resourceCount < 0 then -3 else returnCode
    match rd banker.availableResourcesArray resourceIndex with
    | none => none
    | some available =>
      let returnCode : Int := if resourceCount > available then -5 else returnCode
      if returnCode < 1 then some (returnCode, banker) else
      match upd2 banker.resourcesAllocatedMatrix processIndex resourceIndex
              (fun v => v + resourceCount),
            upd banker.availableResourcesArray resourceIndex (fun v => v - resourceCount),
            upd2 banker.resourcesRequiredMatrix processIndex resourceIndex
              (fun v => v - resourceCount) with
      | some alloc1, some avail1, some need1 =>
        let banker1 : BankerData :=
          { banker with resourcesAllocatedMatrix := alloc1
                        availableResourcesArray := avail1
                        resourcesRequiredMatrix := need1 }
        match Banker_getSafeSequence banker1 with
        | none => none
        | some none =>
          match upd2 banker1.resourcesAllocatedMatrix processIndex resourceIndex
                  (fun v => v - resourceCount),
                upd banker1.availableResourcesArray resourceIndex (fun v => v + resourceCount),
                upd2 banker1.resourcesRequiredMatrix processIndex resourceIndex
                  (fun v => v + resourceCount) with
          | some alloc2, some avail2, some need2 =>
            some (-4, { banker1 with resourcesAllocatedMatrix := alloc2
                                     availableResourcesArray := avail2
                                     resourcesRequiredMatrix := need2 })
          | _, _, _ => none
        | some (some _) => some (returnCode, banker1)
      | _, _, _ => none
  | _, _ => none

/-- The function `Banker_freeResource`: return code and ledger after the call. -/
def Banker_freeResource (banker : BankerData) (processIndex resourceIndex resourceCount : Int) :
    Option (Int × BankerData) :=
  if resourceIndex < 0 ∨ resourceIndex > banker.availableResourcesCount - 1
      ∨ processIndex < 0 ∨ processIndex > banker.processCount - 1 then some (-1, banker) else
  match rd2 banker.resourcesAllocatedMatrix processIndex resourceIndex with
  | none => none
  | some allocated =>
    let resourceCount : Int := if resourceCount > allocated then allocated else resourceCount
    match upd2 banker.resourcesAllocatedMatrix processIndex resourceIndex
            (fun v => v - resourceCount),
          upd banker.availableResourcesArray resourceIndex (fun v => v + resourceCount),
          upd2 banker.resourcesRequiredMatrix processIndex resourceIndex
            (fun v => v + resourceCount) with
    | some alloc1, some avail1, some need1 =>
      some (1, { banker with resourcesAllocatedMatrix := alloc1
                             availableResourcesArray := avail1
                             resourcesRequiredMatrix := need1 })
    | _, _, _ => none

/-- Body of the loop of `Banker_freeAllResources` (lines 112-117). -/
def freeAllStep (processIndex : Nat) (i : Nat) (banker : BankerData) : Option BankerData :=
  match rd2N banker.resourcesAllocatedMatrix processIndex i with
  | none => none
  | some allocated =>
    match updN banker.availableResourcesArray i (fun v => v + allocated),
          upd2N banker.resourcesRequiredMatrix processIndex i (fun v => v + allocated),
          upd2N banker.resourcesAllocatedMatrix processIndex i (fun _ => 0) with
    | some avail1, some need1, some alloc1 =>
      some { banker with availableResourcesArray := avail1
                         resourcesRequiredMatrix := need1
                         resourcesAllocatedMatrix := alloc1 }
    | _, _, _ => none

/-- The function `Banker_freeAllResources`: return code and ledger after the call. -/
def Banker_freeAllResources (banker : BankerData) (processIndex : Int) :
    Option (Int × BankerData) :=
  if processIndex < 0 ∨ processIndex > banker.processCount - 1 then some (-1, banker) else
  match forRange (freeAllStep processIndex.toNat) banker.availableResourcesCount.toNat 0 banker with
  | none => none
  | some banker1 => some (1, banker1)

/-! ## `Banker_init` -/

/-- Body of the inner loop of lines 30-33: `sum += Allocated[p][r]`. -/
def sumStep (resourcesAllocatedMatrix : List (List Int)) (r : Nat) (p : Nat) (sum : Int) :
    Option Int :=
  match rd2N resourcesAllocatedMatrix p r with
  | none => none
  | some a => some (sum + a)

/-- Body of the loop of lines 27-35: `Available[r] = maxResourcesArray[r] - sum`. -/
def availStep (processCount : Int) (maxResourcesArray : List Int)
    (resourcesAllocatedMatrix : List (List Int)) (r : Nat) (avail : List Int) :
    Option (List Int) :=
  match forRange (sumStep resourcesAllocatedMatrix r) processCount.toNat 0 0 with
  | none => none
  | some sum =>
    match maxResourcesArray[r]? with
    | none => none
    | some cap => updN avail r (fun _ => cap - sum)

/-- Body of the inner loop of lines 46-49: `Required[p][r] = Demand[p][r] - Allocated[p][r]`. -/
def needStep (resourcesDemandMatrix resourcesAllocatedMatrix : List (List Int)) (p : Nat) (r : Nat)
    (need : List (List Int)) : Option (List (List Int)) :=
  match rd2N resourcesDemandMatrix p r, rd2N resourcesAllocatedMatrix p r with
  | some d, some a => upd2N need p r (fun _ => d - a)
  | _, _ => none

/-- Body of the outer loop of lines 44-50. -/
def needRow (availableResourcesCount : Int)
    (resourcesDemandMatrix resourcesAllocatedMatrix : List (List Int)) (p : Nat)
    (need : List (List Int)) : Option (List (List Int)) :=
  forRange (needStep resourcesDemandMatrix resourcesAllocatedMatrix p)
    availableResourcesCount.toNat 0 need

/-- Sizes in bytes of an `int` (`sizeof(int)`) and of a pointer to `int`
(`sizeof(int*)`) on the machine that runs the code. -/
structure Sizes where
  sizeofInt : Nat
  sizeofPtr : Nat
deriving DecidableEq

/-- A machine with 4-byte `int` and 4-byte pointers. -/
def ilp32 : Sizes := { sizeofInt := 4, sizeofPtr := 4 }

/-- A machine with 4-byte `int` and 8-byte pointers. -/
def lp64 : Sizes := { sizeofInt := 4, sizeofPtr := 8 }

/-- Body of the loop of lines 40-43: `Required[p] = malloc(R * sizeof(int))`.  The
row-pointer array `Required` was obtained at line 39 with
`processCount * sizeof(int)` bytes; slot `p` of it occupies the bytes from
`p * sizeof(int*)` up to `(p + 1) * sizeof(int*)`, and the store is out of bounds
when that exceeds the block.  Otherwise the matrix gains the new row, taken
zero-filled (every cell of it is overwritten at lines 44-50). -/
def allocRow (sz : Sizes) (availableResourcesCount processCount : Int) (p : Nat)
    (need : List (List Int)) : Option (List (List Int)) :=
  if (p + 1) * sz.sizeofPtr ≤ processCount.toNat * sz.sizeofInt then
    some (need ++ [List.replicate availableResourcesCount.toNat 0])
  else none

/-- The function `Banker_init`: return code and the structure `data` after the call.  The
`Available` array obtained from `malloc` is taken zero-filled; every cell is
overwritten before the function returns. -/
def Banker_init (sz : Sizes) (data : BankerData) (availableResourcesCount processCount : Int)
    (maxResourcesArray : List Int) (resourcesDemandMatrix resourcesAllocatedMatrix : List (List Int)) :
    Option (Int × BankerData) :=
  if availableResourcesCount < 1 then some (-1, data) else
  match forRange (availStep processCount maxResourcesArray resourcesAllocatedMatrix)
      availableResourcesCount.toNat 0 (List.replicate availableResourcesCount.toNat 0) with
  | none => none
  | some avail =>
    match forRange (allocRow sz availableResourcesCount processCount) processCount.toNat 0 [] with
    | none => none
    | some rows =>
      match forRange
          (needRow availableResourcesCount resourcesDemandMatrix resourcesAllocatedMatrix)
          processCount.toNat 0 rows with
      | none => none
      | some need =>
        some (1, { processCount := processCount
                   availableResourcesCount := availableResourcesCount
                   maxResourcesArray := maxResourcesArray
                   availableResourcesArray := avail
                   resourcesDemandMatrix := resourcesDemandMatrix
                   resourcesAllocatedMatrix := resourcesAllocatedMatrix
                   resourcesRequiredMatrix := need })

/-! ## Concrete ledgers used as instances -/

/-- An unused `struct BankerData`, as handed to `Banker_init`. -/
def blank : BankerData :=
  { processCount := 0, availableResourcesCount := 0, maxResourcesArray := [],
    availableResourcesArray := [], resourcesDemandMatrix := [],
    resourcesAllocatedMatrix := [], resourcesRequiredMatrix := [] }

/-- The textbook ledger with five processes and three resource types:
capacities (10,5,7), the Maximum and Allocated matrices of the scenario, and the
Available and Need derived from them. -/
def classic : BankerData :=
  { processCount := 5
    availableResourcesCount := 3
    maxResourcesArray := [10, 5, 7]
    availableResourcesArray := [3, 3, 2]
    resourcesDemandMatrix := [[7, 5, 3], [3, 2, 2], [9, 0, 2], [2, 2, 2], [4, 3, 3]]
    resourcesAllocatedMatrix := [[0, 1, 0], [2, 0, 0], [3, 0, 2], [2, 1, 1], [0, 0, 2]]
    resourcesRequiredMatrix := [[7, 4, 3], [1, 2, 2], [6, 0, 0], [0, 1, 1], [4, 3, 1]] }

/-! ## Predicates and instances used in the statements -/

/-- The cell `m[p][r]`, and 0 outside the matrix. -/
def cell (m : List (List Int)) (p r : Nat) : Int := (rd2N m p r).getD 0

/-- The cell `Available[r]`, and 0 outside the array. -/
def availableAt (b : BankerData) (r : Nat) : Int := (b.availableResourcesArray[r]?).getD 0

/-- The cell `Need[p][r]`. -/
def needAt (b : BankerData) (p r : Nat) : Int := cell b.resourcesRequiredMatrix p r

/-- The cell `Allocated[p][r]`. -/
def allocatedAt (b : BankerData) (p r : Nat) : Int := cell b.resourcesAllocatedMatrix p r

/-- The cell `Maximum[p][r]`. -/
def maximumAt (b : BankerData) (p r : Nat) : Int := cell b.resourcesDemandMatrix p r

/-- Sum of `Allocated[q][r]` over the processes `q` of the list `l`. -/
def heldBy (b : BankerData) (l : List Nat) (r : Nat) : Int :=
  (l.map (fun q => allocatedAt b q r)).sum

/-- The order `s` is safe for the ledger `b`: the process at every position `k`
needs, of every resource type, no more than what is available plus what the
processes before position `k` hold. -/
def SafeOrder (b : BankerData) (s : List Nat) : Prop :=
  ∀ k, k < s.length → ∀ r, r < b.availableResourcesCount.toNat →
    needAt b (s.getD k 0) r ≤ availableAt b r + heldBy b (s.take k) r

/-- The processes finished so far, in the order in which they finished: the
filled part of `safeSequence`. -/
def Sim.finishedOrder (s : Sim) : List Nat := s.safeSequence.take s.safeSequenceMarker

/-- Invariant of the simulation loop of `Banker_getSafeSequence`. -/
structure SimInv (b : BankerData) (s : Sim) : Prop where
  seqLen : s.safeSequence.length = b.processCount.toNat
  finLen : s.hasFinished.length = b.processCount.toNat
  markerLe : s.safeSequenceMarker ≤ b.processCount.toNat
  remaining : s.remainingProcesses = b.processCount - s.safeSequenceMarker
  nodup : s.finishedOrder.Nodup
  finished : ∀ p, p ∈ s.finishedOrder ↔ s.hasFinished[p]? = some 1
  work : ∀ r, r < b.availableResourcesCount.toNat →
    s.availableResourcesArray[r]? = some (availableAt b r + heldBy b s.finishedOrder r)
  safe : SafeOrder b s.finishedOrder

/-- The matrix `m` has a cell `m[p][r]` for every `p < P` and `r < R`. -/
def HasCells (m : List (List Int)) (P R : Nat) : Prop :=
  ∀ p, p < P → ∀ r, r < R → (rd2N m p r).isSome = true

/-- A ledger whose arrays cover the declared dimensions: `Available` and the
capacities have at least `availableResourcesCount` cells, which is not negative,
and the three matrices have a cell for every process and resource type. -/
structure WellFormed (b : BankerData) : Prop where
  resources : 0 ≤ b.availableResourcesCount
  capacity : b.availableResourcesCount.toNat ≤ b.maxResourcesArray.length
  available : b.availableResourcesCount.toNat ≤ b.availableResourcesArray.length
  demand : HasCells b.resourcesDemandMatrix b.processCount.toNat b.availableResourcesCount.toNat
  allocated :
    HasCells b.resourcesAllocatedMatrix b.processCount.toNat b.availableResourcesCount.toNat
  required :
    HasCells b.resourcesRequiredMatrix b.processCount.toNat b.availableResourcesCount.toNat

/-- The process `p` is not finished by the pass at the state `s`: it is
already finished, or its need scan stops early. -/
def Skipped (b : BankerData) (s : Sim) (p : Nat) : Prop :=
  s.hasFinished[p]? = some 1 ∨
    ∃ r', needScan b s.availableResourcesArray p b.availableResourcesCount.toNat 0 = some r' ∧
      (r' : Int) ≠ b.availableResourcesCount

/-- The ledger `b'` is `b` after `δ` instances of resource type `r` moved from
the free pool to process `p` (`δ` may be negative): `Allocated[p][r]` grew by
`δ`, `Available[r]` and `Need[p][r]` shrank by `δ`, nothing else changed. -/
structure Moved (b b' : BankerData) (p r : Nat) (δ : Int) : Prop where
  processCount : b'.processCount = b.processCount
  resourcesCount : b'.availableResourcesCount = b.availableResourcesCount
  capacity : b'.maxResourcesArray = b.maxResourcesArray
  demand : b'.resourcesDemandMatrix = b.resourcesDemandMatrix
  allocated : ∀ q s, allocatedAt b' q s = allocatedAt b q s + if q = p ∧ s = r then δ else 0
  available : ∀ s, availableAt b' s = availableAt b s - if s = r then δ else 0
  required : ∀ q s, needAt b' q s = needAt b q s - if q = p ∧ s = r then δ else 0

/-- Conservation with respect to the capacities `total`:
`Available[r] + Σ_p Allocated[p][r] = total[r]` for every resource type `r`. -/
def Conserved (total : List Int) (b : BankerData) : Prop :=
  ∀ r, r < b.availableResourcesCount.toNat →
    availableAt b r + heldBy b (List.range b.processCount.toNat) r = (total[r]?).getD 0

/-- Need equation: `Need[p][r] = Maximum[p][r] - Allocated[p][r]` for every
process `p` and resource type `r`. -/
def NeedEquation (b : BankerData) : Prop :=
  ∀ p, p < b.processCount.toNat → ∀ r, r < b.availableResourcesCount.toNat →
    needAt b p r = maximumAt b p r - allocatedAt b p r

/-- The ledger `classic` after the granted request of one instance of resource
type 0 by process 1. -/
def classicGranted : BankerData :=
  { classic with
      availableResourcesArray := [2, 3, 2]
      resourcesAllocatedMatrix := [[0, 1, 0], [3, 0, 0], [3, 0, 2], [2, 1, 1], [0, 0, 2]]
      resourcesRequiredMatrix := [[7, 4, 3], [0, 2, 2], [6, 0, 0], [0, 1, 1], [4, 3, 1]] }

/-- The ledger `classicGranted` after process 1 released everything. -/
def classicReleased : BankerData :=
  { classic with
      availableResourcesArray := [5, 3, 2]
      resourcesAllocatedMatrix := [[0, 1, 0], [0, 0, 0], [3, 0, 2], [2, 1, 1], [0, 0, 2]]
      resourcesRequiredMatrix := [[7, 4, 3], [3, 2, 2], [6, 0, 0], [0, 1, 1], [4, 3, 1]] }

/-- A ledger with one process and one resource type of capacity 1, the process
holding its maximum of one instance. -/
def tiny : BankerData :=
  { processCount := 1
    availableResourcesCount := 1
    maxResourcesArray := [1]
    availableResourcesArray := [0]
    resourcesDemandMatrix := [[1]]
    resourcesAllocatedMatrix := [[1]]
    resourcesRequiredMatrix := [[0]] }

/-- State of the loop of `Banker_freeAllResources` for process `p` after the
resource types below `k` were handled, the loop having started from `b`. -/
structure FreeAllInv (b : BankerData) (p k : Nat) (t : BankerData) : Prop where
  wellFormed : WellFormed t
  processCount : t.processCount = b.processCount
  resourcesCount : t.availableResourcesCount = b.availableResourcesCount
  capacity : t.maxResourcesArray = b.maxResourcesArray
  demand : t.resourcesDemandMatrix = b.resourcesDemandMatrix
  rows : ∀ q, q ≠ p →
    t.resourcesAllocatedMatrix[q]? = b.resourcesAllocatedMatrix[q]? ∧
    t.resourcesRequiredMatrix[q]? = b.resourcesRequiredMatrix[q]?
  allocated : ∀ s, allocatedAt t p s = if s < k then 0 else allocatedAt b p s
  available : ∀ s,
    availableAt t s = if s < k then availableAt b s + allocatedAt b p s else availableAt b s
  required : ∀ s, needAt t p s = if s < k then needAt b p s + allocatedAt b p s else needAt b p s

/-- No allocation is negative. -/
def NoNegativeAllocation (b : BankerData) : Prop :=
  ∀ p, p < b.processCount.toNat → ∀ r, r < b.availableResourcesCount.toNat →
    0 ≤ allocatedAt b p r

/-- The ledger `classic` after `Banker_freeResource (0, 1, -1)`. -/
def classicNegativeRelease : BankerData :=
  { classic with
      availableResourcesArray := [3, 2, 2]
      resourcesAllocatedMatrix := [[0, 2, 0], [2, 0, 0], [3, 0, 2], [2, 1, 1], [0, 0, 2]]
      resourcesRequiredMatrix := [[7, 3, 3], [1, 2, 2], [6, 0, 0], [0, 1, 1], [4, 3, 1]] }

/-- The ledger `classicGranted` after the request of two instances of resource
type 1 by process 4. -/
def classicSecondGrant : BankerData :=
  { classic with
      availableResourcesArray := [2, 1, 2]
      resourcesAllocatedMatrix := [[0, 1, 0], [3, 0, 0], [3, 0, 2], [2, 1, 1], [0, 2, 2]]
      resourcesRequiredMatrix := [[7, 4, 3], [0, 2, 2], [6, 0, 0], [0, 1, 1], [4, 1, 1]] }

/-! ## Theorems -/

theorem updN_eq_some {a a' : List Int} {i : Nat} {f : Int → Int} (h : updN a i f = some a') :
    ∃ v, a[i]? = some v ∧ a' = a.set i (f v) := by
  unfold updN at h
  cases hv : a[i]? with
  | none => simp [hv] at h
  | some v => simp [hv] at h; exact ⟨v, rfl, h.symm⟩

theorem upd2N_eq_some {m m' : List (List Int)} {p r : Nat} {f : Int → Int}
    (h : upd2N m p r f = some m') :
    ∃ row v, m[p]? = some row ∧ row[r]? = some v ∧ m' = m.set p (row.set r (f v)) := by
  unfold upd2N at h
  cases hrow : m[p]? with
  | none => simp [hrow] at h
  | some row =>
    simp only [hrow] at h
    cases hu : updN row r f with
    | none => simp [hu] at h
    | some row' =>
      simp only [hu, Option.some.injEq] at h
      obtain ⟨v, hv, hrow'⟩ := updN_eq_some hu
      exact ⟨row, v, rfl, hv, by rw [← h, hrow']⟩

theorem rd2N_eq_some {m : List (List Int)} {p r : Nat} {v : Int} (h : rd2N m p r = some v) :
    ∃ row, m[p]? = some row ∧ row[r]? = some v := by
  unfold rd2N at h
  cases hrow : m[p]? with
  | none => simp [hrow] at h
  | some row => simp only [hrow] at h; exact ⟨row, rfl, h⟩

theorem rd2N_of_row {m : List (List Int)} {p r : Nat} {row : List Int} (h : m[p]? = some row) :
    rd2N m p r = row[r]? := by
  simp [rd2N, h]

theorem getElem?_lt_of_some {α : Type} {l : List α} {i : Nat} {v : α} (h : l[i]? = some v) :
    i < l.length := by
  obtain ⟨hi, _⟩ := List.getElem?_eq_some.mp h
  exact hi

theorem set_same {α : Type} {l : List α} {i : Nat} {v : α} (h : l[i]? = some v) :
    l.set i v = l := by
  apply List.ext_getElem?
  intro j
  by_cases hij : i = j
  · subst hij; rw [List.getElem?_set_self (getElem?_lt_of_some h), h]
  · rw [List.getElem?_set_ne hij]

/-- Reading a matrix after one cell was rewritten. -/
theorem rd2N_upd2N {m m' : List (List Int)} {p r : Nat} {f : Int → Int}
    (h : upd2N m p r f = some m') (q s : Nat) :
    rd2N m' q s = if q = p ∧ s = r then (rd2N m p r).map f else rd2N m q s := by
  obtain ⟨row, v, hrow, hv, rfl⟩ := upd2N_eq_some h
  have hp := getElem?_lt_of_some hrow
  have hr := getElem?_lt_of_some hv
  by_cases hq : q = p
  · subst hq
    by_cases hs : s = r
    · subst hs
      simp [rd2N, hrow, hv, List.getElem?_set_self hp, List.getElem?_set_self hr]
    · have hs' : r ≠ s := fun e => hs e.symm
      simp [rd2N, hrow, hs, List.getElem?_set_self hp, List.getElem?_set_ne hs']
  · have hq' : p ≠ q := fun e => hq e.symm
    simp [rd2N, hq, List.getElem?_set_ne hq']

/-- Reading an array after one cell was rewritten. -/
theorem getElem?_updN {a a' : List Int} {i : Nat} {f : Int → Int}
    (h : updN a i f = some a') (j : Nat) :
    a'[j]? = if j = i then (a[i]?).map f else a[j]? := by
  obtain ⟨v, hv, rfl⟩ := updN_eq_some h
  have hi := getElem?_lt_of_some hv
  by_cases hj : j = i
  · subst hj; simp [hv, List.getElem?_set_self hi]
  · have hj' : i ≠ j := fun e => hj e.symm
    simp [hj, List.getElem?_set_ne hj']

theorem rd2_upd2 {m m' : List (List Int)} {p r : Int} {f : Int → Int}
    (h : upd2 m p r f = some m') (q s : Int) :
    rd2 m' q s = if q = p ∧ s = r then (rd2 m p r).map f else rd2 m q s := by
  unfold upd2 at h
  by_cases hneg : p < 0 ∨ r < 0
  · simp [hneg] at h
  · rw [if_neg hneg] at h
    have hp : 0 ≤ p := by omega
    have hr : 0 ≤ r := by omega
    unfold rd2
    by_cases hqs : q < 0 ∨ s < 0
    · have : ¬ (q = p ∧ s = r) := by omega
      simp [hqs, this]
    · rw [if_neg hqs, if_neg hneg, rd2N_upd2N h]
      have e : (q.toNat = p.toNat ∧ s.toNat = r.toNat) ↔ (q = p ∧ s = r) := by omega
      simp only [e, if_neg hqs]

theorem rd_upd {a a' : List Int} {i : Int} {f : Int → Int}
    (h : upd a i f = some a') (j : Int) :
    rd a' j = if j = i then (rd a i).map f else rd a j := by
  unfold upd at h
  by_cases hneg : i < 0
  · simp [hneg] at h
  · rw [if_neg hneg] at h
    unfold rd
    by_cases hj : j < 0
    · have : ¬ (j = i) := by omega
      simp [hj, this]
    · rw [if_neg hj, if_neg hneg, getElem?_updN h]
      have e : (j.toNat = i.toNat) ↔ (j = i) := by omega
      simp only [e, if_neg hj]

/-- Undoing a read-modify-write restores the array. -/
theorem updN_undo {a a1 a2 : List Int} {i : Nat} {f g : Int → Int} (hfg : ∀ v, g (f v) = v)
    (h1 : updN a i f = some a1) (h2 : updN a1 i g = some a2) : a2 = a := by
  obtain ⟨v, hv, rfl⟩ := updN_eq_some h1
  obtain ⟨w, hw, rfl⟩ := updN_eq_some h2
  rw [List.getElem?_set_self (getElem?_lt_of_some hv)] at hw
  simp only [Option.some.injEq] at hw
  rw [List.set_set, ← hw, hfg, set_same hv]

theorem upd2N_undo {m m1 m2 : List (List Int)} {p r : Nat} {f g : Int → Int}
    (hfg : ∀ v, g (f v) = v)
    (h1 : upd2N m p r f = some m1) (h2 : upd2N m1 p r g = some m2) : m2 = m := by
  obtain ⟨row, v, hrow, hv, rfl⟩ := upd2N_eq_some h1
  obtain ⟨row', w, hrow', hw, rfl⟩ := upd2N_eq_some h2
  rw [List.getElem?_set_self (getElem?_lt_of_some hrow)] at hrow'
  simp only [Option.some.injEq] at hrow'
  subst hrow'
  rw [List.getElem?_set_self (getElem?_lt_of_some hv)] at hw
  simp only [Option.some.injEq] at hw
  rw [List.set_set, List.set_set, ← hw, hfg, set_same hv, set_same hrow]

theorem upd_undo {a a1 a2 : List Int} {i : Int} {f g : Int → Int} (hfg : ∀ v, g (f v) = v)
    (h1 : upd a i f = some a1) (h2 : upd a1 i g = some a2) : a2 = a := by
  unfold upd at h1 h2
  by_cases hneg : i < 0
  · simp [hneg] at h1
  · rw [if_neg hneg] at h1 h2
    exact updN_undo hfg h1 h2

theorem upd2_undo {m m1 m2 : List (List Int)} {p r : Int} {f g : Int → Int}
    (hfg : ∀ v, g (f v) = v)
    (h1 : upd2 m p r f = some m1) (h2 : upd2 m1 p r g = some m2) : m2 = m := by
  unfold upd2 at h1 h2
  by_cases hneg : p < 0 ∨ r < 0
  · simp [hneg] at h1
  · rw [if_neg hneg] at h1 h2
    exact upd2N_undo hfg h1 h2

/-- Outcomes of `Banker_requestResource`: either a failure code and the ledger it
was given, or the code `1`, the three rewritten cells, and a safe sequence of the
new ledger; in the second case the request passed the three validation tests. -/
theorem request_cases {b b' : BankerData} {p r c rc : Int}
    (h : Banker_requestResource b p r c = some (rc, b')) :
    (rc ≠ 1 ∧ b' = b) ∨
    (rc = 1 ∧ 0 ≤ p ∧ p ≤ b.processCount - 1 ∧ 0 ≤ r ∧ r ≤ b.availableResourcesCount - 1 ∧
      0 ≤ c ∧
      ∃ alloc1 avail1 need1,
        upd2 b.resourcesAllocatedMatrix p r (fun v => v + c) = some alloc1 ∧
        upd b.availableResourcesArray r (fun v => v - c) = some avail1 ∧
        upd2 b.resourcesRequiredMatrix p r (fun v => v - c) = some need1 ∧
        b' = { b with resourcesAllocatedMatrix := alloc1
                      availableResourcesArray := avail1
                      resourcesRequiredMatrix := need1 } ∧
        (∃ s, Banker_getSafeSequence b' = some (some s)) ∧
        ∃ a d av, rd2 b.resourcesAllocatedMatrix p r = some a ∧
          rd2 b.resourcesDemandMatrix p r = some d ∧
          rd b.availableResourcesArray r = some av ∧ c + a ≤ d ∧ c ≤ av) := by
  unfold Banker_requestResource at h
  by_cases hp : p < 0 ∨ p > b.processCount - 1
  · rw [if_pos hp] at h
    simp only [Option.some.injEq, Prod.mk.injEq] at h
    left; exact ⟨by omega, h.2.symm⟩
  rw [if_neg hp] at h
  cases ha : rd2 b.resourcesAllocatedMatrix p r with
  | none => simp [ha] at h
  | some a =>
  cases hd : rd2 b.resourcesDemandMatrix p r with
  | none => simp [ha, hd] at h
  | some d =>
  cases hav : rd b.availableResourcesArray r with
  | none => simp [ha, hd, hav] at h
  | some av =>
  simp only [ha, hd, hav] at h
  by_cases hlt : (if c > av then (-5 : Int) else if c + a > d ∨ c < 0 then -3 else
      if r < 0 ∨ r > b.availableResourcesCount - 1 then -1 else 1) < 1
  · rw [if_pos hlt] at h
    simp only [Option.some.injEq, Prod.mk.injEq] at h
    left; exact ⟨by omega, h.2.symm⟩
  rw [if_neg hlt] at h
  have hc : ¬ (c > av) := by
    intro hc; apply hlt; simp [hc]
  have hcl : ¬ (c + a > d ∨ c < 0) := by
    intro hcl; apply hlt; simp [hc, hcl]
  have hr : ¬ (r < 0 ∨ r > b.availableResourcesCount - 1) := by
    intro hr; apply hlt; simp [hc, hcl, hr]
  cases h1 : upd2 b.resourcesAllocatedMatrix p r (fun v => v + c) with
  | none => simp [h1] at h
  | some alloc1 =>
  cases h2 : upd b.availableResourcesArray r (fun v => v - c) with
  | none => simp [h1, h2] at h
  | some avail1 =>
  cases h3 : upd2 b.resourcesRequiredMatrix p r (fun v => v - c) with
  | none => simp [h1, h2, h3] at h
  | some need1 =>
  simp only [h1, h2, h3] at h
  cases hs : Banker_getSafeSequence { b with resourcesAllocatedMatrix := alloc1
                                             availableResourcesArray := avail1
                                             resourcesRequiredMatrix := need1 } with
  | none => simp [hs] at h
  | some res =>
  cases res with
  | none =>
    simp only [hs] at h
    cases h4 : upd2 alloc1 p r (fun v => v - c) with
    | none => simp [h4] at h
    | some alloc2 =>
    cases h5 : upd avail1 r (fun v => v + c) with
    | none => simp [h4, h5] at h
    | some avail2 =>
    cases h6 : upd2 need1 p r (fun v => v + c) with
    | none => simp [h4, h5, h6] at h
    | some need2 =>
    simp only [h4, h5, h6, Option.some.injEq, Prod.mk.injEq] at h
    left
    refine ⟨by omega, ?_⟩
    have e1 := upd2_undo (f := fun v => v + c) (g := fun v => v - c) (by intro v; simp) h1 h4
    have e2 := upd_undo (f := fun v => v - c) (g := fun v => v + c) (by intro v; simp) h2 h5
    have e3 := upd2_undo (f := fun v => v - c) (g := fun v => v + c) (by intro v; simp) h3 h6
    rw [← h.2, e1, e2, e3]
  | some s =>
    simp only [hs, Option.some.injEq, Prod.mk.injEq] at h
    right
    have hrc : rc = 1 := by
      rw [← h.1]; simp [hc, hcl, hr]
    refine ⟨hrc, by omega, by omega, by omega, by omega, by omega,
      alloc1, avail1, need1, rfl, rfl, rfl, h.2.symm, ⟨s, ?_⟩, a, d, av, rfl, rfl, rfl,
      by omega, by omega⟩
    rw [← h.2]; exact hs

/-- C1. Whenever `Banker_requestResource` returns success (1), `Banker_getSafeSequence`
run on the ledger it leaves returns a sequence (not `NULL`). -/
theorem granted_request_is_safe (b b' : BankerData) (p r c : Int)
    (h : Banker_requestResource b p r c = some (1, b')) :
    ∃ s, Banker_getSafeSequence b' = some (some s) := by
  rcases request_cases h with ⟨hne, _⟩ | ⟨_, _, _, _, _, _, _, _, _, _, _, _, _, hs, _⟩
  · exact absurd rfl hne
  · exact hs

theorem granted_request_is_safe_witness :
    Banker_requestResource classic 1 0 1 =
        some (1, { classic with
                    availableResourcesArray := [2, 3, 2]
                    resourcesAllocatedMatrix := [[0, 1, 0], [3, 0, 0], [3, 0, 2], [2, 1, 1], [0, 0, 2]]
                    resourcesRequiredMatrix := [[7, 4, 3], [0, 2, 2], [6, 0, 0], [0, 1, 1], [4, 3, 1]] }) ∧
      ∃ s, Banker_getSafeSequence
        { classic with
            availableResourcesArray := [2, 3, 2]
            resourcesAllocatedMatrix := [[0, 1, 0], [3, 0, 0], [3, 0, 2], [2, 1, 1], [0, 0, 2]]
            resourcesRequiredMatrix := [[7, 4, 3], [0, 2, 2], [6, 0, 0], [0, 1, 1], [4, 3, 1]] } =
        some (some s) :=
  ⟨by decide, granted_request_is_safe classic _ 1 0 1 (by decide)⟩

/-- C2. Whenever `Banker_requestResource` returns one of the failure codes
-2, -1, -3, -5, -4, the Available vector and the Maximum, Allocated and Need
matrices after the call equal those before it. -/
theorem rejected_request_keeps_ledger (b b' : BankerData) (p r c rc : Int)
    (h : Banker_requestResource b p r c = some (rc, b'))
    (hrc : rc = -2 ∨ rc = -1 ∨ rc = -3 ∨ rc = -5 ∨ rc = -4) :
    b'.availableResourcesArray = b.availableResourcesArray ∧
    b'.resourcesDemandMatrix = b.resourcesDemandMatrix ∧
    b'.resourcesAllocatedMatrix = b.resourcesAllocatedMatrix ∧
    b'.resourcesRequiredMatrix = b.resourcesRequiredMatrix := by
  rcases request_cases h with ⟨_, hb⟩ | ⟨h1, _⟩
  · subst hb; exact ⟨rfl, rfl, rfl, rfl⟩
  · omega

theorem rejected_request_keeps_ledger_witness :
    Banker_requestResource classic 0 1 3 = some (-4, classic) ∧
    classic.availableResourcesArray = classic.availableResourcesArray ∧
    classic.resourcesDemandMatrix = classic.resourcesDemandMatrix ∧
    classic.resourcesAllocatedMatrix = classic.resourcesAllocatedMatrix ∧
    classic.resourcesRequiredMatrix = classic.resourcesRequiredMatrix :=
  ⟨by decide, rejected_request_keeps_ledger classic classic 0 1 3 (-4) (by decide) (by decide)⟩

/-- C3. When `Banker_requestResource (p, r, count)` returns success, the cells
`Allocated[p][r]`, `Available[r]` and `Need[p][r]` exist and hold afterwards the old
value plus `count`, minus `count` and minus `count`; every other cell of Allocated,
Available and Need reads as before, and Maximum, the capacities and both counts are
unchanged. -/
theorem granted_request_frame (b b' : BankerData) (p r c : Int)
    (h : Banker_requestResource b p r c = some (1, b')) :
    (∃ a av n,
      rd2 b.resourcesAllocatedMatrix p r = some a ∧
      rd b.availableResourcesArray r = some av ∧
      rd2 b.resourcesRequiredMatrix p r = some n ∧
      rd2 b'.resourcesAllocatedMatrix p r = some (a + c) ∧
      rd b'.availableResourcesArray r = some (av - c) ∧
      rd2 b'.resourcesRequiredMatrix p r = some (n - c)) ∧
    (∀ q s : Int, ¬ (q = p ∧ s = r) →
      rd2 b'.resourcesAllocatedMatrix q s = rd2 b.resourcesAllocatedMatrix q s ∧
      rd2 b'.resourcesRequiredMatrix q s = rd2 b.resourcesRequiredMatrix q s) ∧
    (∀ s : Int, s ≠ r → rd b'.availableResourcesArray s = rd b.availableResourcesArray s) ∧
    b'.resourcesDemandMatrix = b.resourcesDemandMatrix ∧
    b'.maxResourcesArray = b.maxResourcesArray ∧
    b'.processCount = b.processCount ∧
    b'.availableResourcesCount = b.availableResourcesCount := by
  rcases request_cases h with ⟨hne, _⟩ |
    ⟨_, _, _, _, _, _, alloc1, avail1, need1, h1, h2, h3, hb, _, a, d, av, ha, hd, hav, _, _⟩
  · exact absurd rfl hne
  · subst hb
    have hn : ∃ n, rd2 b.resourcesRequiredMatrix p r = some n := by
      have := rd2_upd2 h3 p r
      simp only [and_self, if_true] at this
      cases hx : rd2 b.resourcesRequiredMatrix p r with
      | some n => exact ⟨n, rfl⟩
      | none =>
        exfalso
        unfold upd2 at h3
        unfold rd2 at hx
        by_cases hneg : p < 0 ∨ r < 0
        · simp [hneg] at h3
        · rw [if_neg hneg] at h3 hx
          obtain ⟨row, v, hrow, hv, _⟩ := upd2N_eq_some h3
          rw [rd2N_of_row hrow, hv] at hx
          exact Option.noConfusion hx
    obtain ⟨n, hn⟩ := hn
    refine ⟨⟨a, av, n, ha, hav, hn, ?_, ?_, ?_⟩, ?_, ?_, rfl, rfl, rfl, rfl⟩
    · have := rd2_upd2 h1 p r
      simpa [ha] using this
    · have := rd_upd h2 r
      simpa [hav, sub_eq_add_neg] using this
    · have := rd2_upd2 h3 p r
      simpa [hn, sub_eq_add_neg] using this
    · intro q s hqs
      exact ⟨by simpa [hqs] using rd2_upd2 h1 q s, by simpa [hqs] using rd2_upd2 h3 q s⟩
    · intro s hs
      simpa [hs] using rd_upd h2 s

/-- Invariant rule for `forRange`. -/
theorem forRange_inv {σ : Type} (body : Nat → σ → Option σ) (Inv : Nat → σ → Prop) :
    ∀ (n i : Nat) (s s' : σ),
      (∀ j t t', i ≤ j → j < i + n → Inv j t → body j t = some t' → Inv (j + 1) t') →
      Inv i s → forRange body n i s = some s' → Inv (i + n) s' := by
  intro n
  induction n with
  | zero =>
    intro i s s' _ hi h
    simp only [forRange, Option.some.injEq] at h
    subst h; simpa using hi
  | succ n ih =>
    intro i s s' hstep hi h
    simp only [forRange] at h
    cases hb : body i s with
    | none => simp [hb] at h
    | some t =>
      simp only [hb] at h
      have ht : Inv (i + 1) t := hstep i s t (le_refl _) (by omega) hi hb
      have := ih (i + 1) t s' (fun j u u' h1 h2 => hstep j u u' (by omega) (by omega)) ht h
      have e : i + 1 + n = i + (n + 1) := by omega
      rw [e] at this; exact this

/-- A `forRange` loop whose body cannot fault under the invariant does not fault. -/
theorem forRange_total {σ : Type} (body : Nat → σ → Option σ) (Inv : Nat → σ → Prop) :
    ∀ (n i : Nat) (s : σ),
      (∀ j t, i ≤ j → j < i + n → Inv j t → ∃ t', body j t = some t' ∧ Inv (j + 1) t') →
      Inv i s → ∃ s', forRange body n i s = some s' ∧ Inv (i + n) s' := by
  intro n
  induction n with
  | zero =>
    intro i s _ hi
    exact ⟨s, rfl, by simpa using hi⟩
  | succ n ih =>
    intro i s hstep hi
    obtain ⟨t, hb, ht⟩ := hstep i s (le_refl _) (by omega) hi
    obtain ⟨s', hs', hinv⟩ :=
      ih (i + 1) t (fun j u h1 h2 => hstep j u (by omega) (by omega)) ht
    refine ⟨s', ?_, ?_⟩
    · simp only [forRange, hb]; exact hs'
    · have e : i + 1 + n = i + (n + 1) := by omega
      rw [e] at hinv; exact hinv

theorem cell_of_rd2N {m : List (List Int)} {p r : Nat} {v : Int} (h : rd2N m p r = some v) :
    cell m p r = v := by
  simp [cell, h]

theorem needScan_spec (b : BankerData) (work : List Int) (p : Nat) :
    ∀ (n r r' : Nat), needScan b work p n r = some r' →
      r ≤ r' ∧ r' ≤ r + n ∧
      (∀ j, r ≤ j → j < r' → ∃ w, work[j]? = some w ∧ needAt b p j ≤ w) ∧
      (r' < r + n → ∃ w, work[r']? = some w ∧ needAt b p r' > w) := by
  intro n
  induction n with
  | zero =>
    intro r r' h
    simp only [needScan, Option.some.injEq] at h
    subst h
    exact ⟨le_refl _, le_refl _, fun j h1 h2 => by omega, fun h => by omega⟩
  | succ n ih =>
    intro r r' h
    simp only [needScan] at h
    cases hn : rd2N b.resourcesRequiredMatrix p r with
    | none => simp [hn] at h
    | some nd =>
      cases hw : work[r]? with
      | none => simp [hn, hw] at h
      | some w =>
        simp only [hn, hw] at h
        by_cases hgt : nd > w
        · rw [if_pos hgt] at h
          simp only [Option.some.injEq] at h
          subst h
          refine ⟨le_refl _, by omega, fun j h1 h2 => by omega, fun _ => ⟨w, hw, ?_⟩⟩
          simp only [needAt, cell_of_rd2N hn]; exact hgt
        · rw [if_neg hgt] at h
          obtain ⟨h1, h2, h3, h4⟩ := ih (r + 1) r' h
          refine ⟨by omega, by omega, ?_, fun hlt => h4 (by omega)⟩
          intro j hj1 hj2
          by_cases hjr : j = r
          · subst hjr
            exact ⟨w, hw, by simp only [needAt, cell_of_rd2N hn]; omega⟩
          · exact h3 j (by omega) hj2

theorem needScan_total (b : BankerData) (work : List Int) (p : Nat) :
    ∀ (n r : Nat),
      (∀ j, r ≤ j → j < r + n →
        (∃ v, rd2N b.resourcesRequiredMatrix p j = some v) ∧ ∃ w, work[j]? = some w) →
      ∃ r', needScan b work p n r = some r' := by
  intro n
  induction n with
  | zero => intro r _; exact ⟨r, rfl⟩
  | succ n ih =>
    intro r hrd
    obtain ⟨⟨v, hv⟩, ⟨w, hw⟩⟩ := hrd r (le_refl _) (by omega)
    simp only [needScan, hv, hw]
    by_cases hgt : v > w
    · rw [if_pos hgt]; exact ⟨r, rfl⟩
    · rw [if_neg hgt]
      exact ih (r + 1) (fun j h1 h2 => hrd j (by omega) (by omega))

/-- When every need of `p` is covered the scan runs to the end. -/
theorem needScan_covered (b : BankerData) (work : List Int) (p : Nat) :
    ∀ (n r r' : Nat), needScan b work p n r = some r' →
      (∀ j, r ≤ j → j < r + n → ∀ w, work[j]? = some w → needAt b p j ≤ w) →
      r' = r + n := by
  intro n r r' h hcov
  obtain ⟨_, h2, _, h4⟩ := needScan_spec b work p n r r' h
  by_contra hne
  obtain ⟨w, hw, hgt⟩ := h4 (by omega)
  have := hcov r' (by omega) (by omega) w hw
  omega

theorem giveBack_loop (b : BankerData) (p n : Nat) (work work' : List Int)
    (h : forRange (giveBack b p) n 0 work = some work') :
    work'.length = work.length ∧
    ∀ j, work'[j]? = if j < n then (work[j]?).map (fun w => w + allocatedAt b p j) else work[j]? := by
  have := forRange_inv (giveBack b p)
    (fun k w => w.length = work.length ∧
      ∀ j, w[j]? = if j < k then (work[j]?).map (fun x => x + allocatedAt b p j) else work[j]?)
    n 0 work work' ?_ ?_ h
  · simpa using this
  · intro j t t' _ _ hinv hbody
    unfold giveBack at hbody
    cases ha : rd2N b.resourcesAllocatedMatrix p j with
    | none => simp [ha] at hbody
    | some a =>
      simp only [ha] at hbody
      obtain ⟨v, hv, rfl⟩ := updN_eq_some hbody
      refine ⟨by simp [hinv.1], ?_⟩
      intro k
      by_cases hkj : k = j
      · subst hkj
        have hlt := getElem?_lt_of_some hv
        rw [List.getElem?_set_self hlt]
        have := hinv.2 k
        simp only [lt_irrefl, if_false] at this
        rw [hv] at this
        simp [← this, allocatedAt, cell_of_rd2N ha]
      · have hjk : j ≠ k := fun e => hkj e.symm
        rw [List.getElem?_set_ne hjk, hinv.2 k]
        by_cases hlt : k < j
        · have : k < j + 1 := by omega
          simp [hlt, this]
        · have : ¬ k < j + 1 := by omega
          simp [hlt, this]
  · exact ⟨rfl, fun j => by simp⟩

theorem giveBack_total (b : BankerData) (p n : Nat) (work : List Int)
    (hrow : ∀ j, j < n → ∃ a, rd2N b.resourcesAllocatedMatrix p j = some a)
    (hlen : n ≤ work.length) :
    ∃ work', forRange (giveBack b p) n 0 work = some work' := by
  have hstep : ∀ j t, 0 ≤ j → j < 0 + n → t.length = work.length →
      ∃ t', giveBack b p j t = some t' ∧ t'.length = work.length := by
    intro j t _ hj ht
    obtain ⟨a, ha⟩ := hrow j (by omega)
    have hjt : j < t.length := by omega
    refine ⟨t.set j (t[j] + a), ?_, by simp [ht]⟩
    simp [giveBack, ha, updN, List.getElem?_eq_getElem hjt]
  obtain ⟨w', hw', _⟩ := forRange_total (giveBack b p) (fun _ w => w.length = work.length)
    n 0 work hstep rfl
  exact ⟨w', hw'⟩

theorem copyAvailable_loop (b : BankerData) (n : Nat) (work work' : List Int)
    (h : forRange (copyAvailable b) n 0 work = some work') :
    work'.length = work.length ∧
    ∀ j, j < n → work'[j]? = some (availableAt b j) := by
  have := forRange_inv (copyAvailable b)
    (fun k w => w.length = work.length ∧ ∀ j, j < k → w[j]? = some (availableAt b j))
    n 0 work work' ?_ ?_ h
  · simpa using this
  · intro j t t' _ _ hinv hbody
    unfold copyAvailable at hbody
    cases ha : b.availableResourcesArray[j]? with
    | none => simp [ha] at hbody
    | some a =>
      simp only [ha] at hbody
      obtain ⟨v, hv, rfl⟩ := updN_eq_some hbody
      refine ⟨by simp [hinv.1], ?_⟩
      intro k hk
      by_cases hkj : k = j
      · subst hkj
        rw [List.getElem?_set_self (getElem?_lt_of_some hv)]
        simp [availableAt, ha]
      · have hjk : j ≠ k := fun e => hkj e.symm
        rw [List.getElem?_set_ne hjk]
        exact hinv.2 k (by omega)
  · exact ⟨rfl, fun j hj => by omega⟩

theorem copyAvailable_total (b : BankerData) (n : Nat) (work : List Int)
    (hav : n ≤ b.availableResourcesArray.length) (hlen : n ≤ work.length) :
    ∃ work', forRange (copyAvailable b) n 0 work = some work' := by
  have hstep : ∀ j t, 0 ≤ j → j < 0 + n → t.length = work.length →
      ∃ t', copyAvailable b j t = some t' ∧ t'.length = work.length := by
    intro j t _ hj ht
    have hjt : j < t.length := by omega
    have hja : j < b.availableResourcesArray.length := by omega
    refine ⟨t.set j (b.availableResourcesArray[j]), ?_, by simp [ht]⟩
    simp [copyAvailable, updN, List.getElem?_eq_getElem hjt, List.getElem?_eq_getElem hja]
  obtain ⟨w', hw', _⟩ := forRange_total (copyAvailable b) (fun _ w => w.length = work.length)
    n 0 work hstep rfl
  exact ⟨w', hw'⟩

theorem take_succ_set (l : List Nat) (m v : Nat) (h : m < l.length) :
    (l.set m v).take (m + 1) = l.take m ++ [v] := by
  induction l generalizing m with
  | nil => simp at h
  | cons x xs ih =>
    cases m with
    | zero => simp
    | succ m =>
      simp only [List.length_cons, Nat.add_lt_add_iff_right] at h
      simp only [List.set_cons_succ, List.take_succ_cons, List.cons_append, List.cons.injEq,
        true_and]
      exact ih m h

theorem heldBy_append (b : BankerData) (l : List Nat) (p r : Nat) :
    heldBy b (l ++ [p]) r = heldBy b l r + allocatedAt b p r := by
  simp [heldBy]

theorem SafeOrder.append {b : BankerData} {l : List Nat} {p : Nat} (hl : SafeOrder b l)
    (hp : ∀ r, r < b.availableResourcesCount.toNat →
      needAt b p r ≤ availableAt b r + heldBy b l r) :
    SafeOrder b (l ++ [p]) := by
  intro k hk r hr
  simp only [List.length_append, List.length_singleton] at hk
  by_cases hlt : k < l.length
  · rw [List.getD_append _ _ _ _ hlt, List.take_append_of_le_length (by omega)]
    exact hl k hlt r hr
  · have hk' : k = l.length := by omega
    subst hk'
    rw [List.getD_append_right _ _ _ _ (le_refl _)]
    simp only [Nat.sub_self, List.getD_cons_zero]
    rw [List.take_append_of_le_length (le_refl _), List.take_length]
    exact hp r hr

/-- What one step of the pass does: nothing, or it finishes the process `p`. -/
theorem simulateProcess_cases {b : BankerData} {p : Nat} {s s' : Sim}
    (h : simulateProcess b p s = some s') :
    (s' = s ∧ ((s.hasFinished[p]? = some 1) ∨
        ∃ r', needScan b s.availableResourcesArray p b.availableResourcesCount.toNat 0 = some r' ∧
          (r' : Int) ≠ b.availableResourcesCount)) ∨
    (∃ fin work seq, s.hasFinished[p]? = some fin ∧ fin ≠ 1 ∧
      needScan b s.availableResourcesArray p b.availableResourcesCount.toNat 0 =
        some b.availableResourcesCount.toNat ∧
      0 ≤ b.availableResourcesCount ∧
      forRange (giveBack b p) b.availableResourcesCount.toNat 0 s.availableResourcesArray =
        some work ∧
      storeN s.safeSequence s.safeSequenceMarker p = some seq ∧
      s' = { safeSequence := seq
             safeSequenceMarker := s.safeSequenceMarker + 1
             remainingProcesses := s.remainingProcesses - 1
             isStatePseudoSafe := 1
             hasFinished := s.hasFinished.set p 1
             availableResourcesArray := work }) := by
  unfold simulateProcess at h
  cases hf : s.hasFinished[p]? with
  | none => simp [hf] at h
  | some fin =>
    simp only [hf] at h
    by_cases hfin : fin ≠ 1
    · rw [if_pos hfin] at h
      cases hn : needScan b s.availableResourcesArray p b.availableResourcesCount.toNat 0 with
      | none => simp [hn] at h
      | some r' =>
        simp only [hn] at h
        by_cases hr : (r' : Int) = b.availableResourcesCount
        · rw [if_pos hr] at h
          cases hg : forRange (giveBack b p) b.availableResourcesCount.toNat 0
              s.availableResourcesArray with
          | none => simp [hg] at h
          | some work =>
            simp only [hg] at h
            cases hst : storeN s.safeSequence s.safeSequenceMarker p with
            | none => simp [hst] at h
            | some seq =>
              simp only [hst, Option.some.injEq] at h
              right
              have hR : 0 ≤ b.availableResourcesCount := by omega
              have hr' : r' = b.availableResourcesCount.toNat := by omega
              exact ⟨fin, work, seq, rfl, hfin, by rw [hr'], hR, rfl, rfl, h.symm⟩
        · rw [if_neg hr] at h
          simp only [Option.some.injEq] at h
          left
          exact ⟨h.symm, Or.inr ⟨r', rfl, hr⟩⟩
    · rw [if_neg hfin] at h
      simp only [Option.some.injEq] at h
      left
      have : fin = 1 := by
        by_contra hne; exact hfin hne
      exact ⟨h.symm, Or.inl (by rw [this])⟩

/-- One step of the pass keeps the invariant. -/
theorem simulateProcess_inv {b : BankerData} {p : Nat} {s s' : Sim}
    (h : simulateProcess b p s = some s') (hinv : SimInv b s) : SimInv b s' := by
  rcases simulateProcess_cases h with ⟨rfl, _⟩ |
    ⟨fin, work, seq, hf, hfin, hscan, hR, hgive, hstore, rfl⟩
  · exact hinv
  · have hm : s.safeSequenceMarker < s.safeSequence.length := by
      unfold storeN at hstore
      by_contra hge
      rw [if_neg hge] at hstore
      exact Option.noConfusion hstore
    have hseq : seq = s.safeSequence.set s.safeSequenceMarker p := by
      unfold storeN at hstore
      rw [if_pos hm] at hstore
      exact (Option.some.inj hstore).symm
    have hplt : p < s.hasFinished.length := getElem?_lt_of_some hf
    have hdone : Sim.finishedOrder
        { safeSequence := seq
          safeSequenceMarker := s.safeSequenceMarker + 1
          remainingProcesses := s.remainingProcesses - 1
          isStatePseudoSafe := 1
          hasFinished := s.hasFinished.set p 1
          availableResourcesArray := work } = s.finishedOrder ++ [p] := by
      simp only [Sim.finishedOrder, hseq]
      exact take_succ_set _ _ _ hm
    have hpnot : p ∉ s.finishedOrder := by
      intro hmem
      have := (hinv.finished p).mp hmem
      rw [hf] at this
      exact hfin (Option.some.inj this)
    have hcover : ∀ r, r < b.availableResourcesCount.toNat →
        needAt b p r ≤ availableAt b r + heldBy b s.finishedOrder r := by
      intro r hr
      obtain ⟨_, _, h3, _⟩ := needScan_spec b _ p _ 0 _ hscan
      obtain ⟨w, hw, hle⟩ := h3 r (Nat.zero_le _) hr
      rw [hinv.work r hr] at hw
      rw [← Option.some.inj hw] at hle
      exact hle
    obtain ⟨hwlen, hwork⟩ := giveBack_loop b p _ _ _ hgive
    refine ⟨?_, ?_, ?_, ?_, ?_, ?_, ?_, ?_⟩
    · simp [hseq, hinv.seqLen]
    · simp [hinv.finLen]
    · have := hinv.seqLen
      simp only
      omega
    · simp only [hinv.remaining]
      push_cast
      ring
    · rw [hdone]
      exact List.Nodup.append hinv.nodup (List.nodup_singleton p)
        (by simpa using hpnot)
    · intro q
      rw [hdone]
      simp only [List.mem_append, List.mem_singleton]
      by_cases hqp : q = p
      · subst hqp
        simp [List.getElem?_set_self hplt]
      · have hpq : p ≠ q := fun e => hqp e.symm
        rw [List.getElem?_set_ne hpq]
        simp [hqp, hinv.finished q]
    · intro r hr
      rw [hdone, heldBy_append]
      simp only
      rw [hwork r, if_pos hr, hinv.work r hr]
      simp [add_assoc]
    · rw [hdone]
      exact hinv.safe.append hcover

theorem SimInv.resetFlag {b : BankerData} {s : Sim} (hinv : SimInv b s) :
    SimInv b { s with isStatePseudoSafe := 0 } :=
  ⟨hinv.seqLen, hinv.finLen, hinv.markerLe, hinv.remaining, hinv.nodup, hinv.finished,
    hinv.work, hinv.safe⟩

/-- A pass over the processes keeps the invariant. -/
theorem pass_inv {b : BankerData} {n i : Nat} {s s' : Sim}
    (h : forRange (simulateProcess b) n i s = some s') (hinv : SimInv b s) : SimInv b s' :=
  forRange_inv (simulateProcess b) (fun _ t => SimInv b t) n i s s'
    (fun _ _ _ _ _ ht hb => simulateProcess_inv hb ht) hinv h

/-- The simulation loop keeps the invariant. -/
theorem simulation_inv (b : BankerData) :
    ∀ (fuel : Nat) (s s' : Sim), simulation b fuel s = some s' → SimInv b s → SimInv b s' := by
  intro fuel
  induction fuel with
  | zero =>
    intro s s' h hinv
    simp only [simulation] at h
    by_cases hr : s.remainingProcesses > 0
    · simp [hr] at h
    · rw [if_neg hr] at h
      rw [← Option.some.inj h]; exact hinv
  | succ fuel ih =>
    intro s s' h hinv
    simp only [simulation] at h
    by_cases hr : s.remainingProcesses > 0
    · rw [if_pos hr] at h
      cases hp : forRange (simulateProcess b) b.processCount.toNat 0
          { s with isStatePseudoSafe := 0 } with
      | none => simp [hp] at h
      | some t =>
        simp only [hp] at h
        have ht : SimInv b t := pass_inv hp hinv.resetFlag
        by_cases hflag : t.isStatePseudoSafe ≠ 1
        · rw [if_pos hflag] at h
          rw [← Option.some.inj h]; exact ht
        · rw [if_neg hflag] at h
          exact ih t s' h ht
    · rw [if_neg hr] at h
      rw [← Option.some.inj h]; exact hinv

/-- The invariant holds when the simulation starts. -/
theorem simInit_inv {b : BankerData} {s0 : Sim} (h : simInit b = some s0) : SimInv b s0 := by
  unfold simInit at h
  cases hc : forRange (copyAvailable b) b.availableResourcesCount.toNat 0
      (List.replicate b.availableResourcesCount.toNat 0) with
  | none => simp [hc] at h
  | some work =>
    simp only [hc, Option.some.injEq] at h
    subst h
    obtain ⟨_, hw⟩ := copyAvailable_loop b _ _ _ hc
    refine ⟨by simp, by simp, Nat.zero_le _, by simp, by simp [Sim.finishedOrder], ?_, ?_, ?_⟩
    · intro p
      simp only [Sim.finishedOrder, List.take_zero, List.not_mem_nil, false_iff]
      intro hp
      have hlt := getElem?_lt_of_some hp
      rw [List.getElem?_eq_getElem hlt] at hp
      simp at hp
    · intro r hr
      simp only [Sim.finishedOrder, List.take_zero, heldBy, List.map_nil, List.sum_nil, add_zero]
      exact hw r hr
    · intro k hk
      simp [Sim.finishedOrder] at hk

/-- A duplicate-free list of numbers below `n` of length `n` lists `0 .. n-1`. -/
theorem perm_range_of_nodup {l : List Nat} {n : Nat} (hnd : l.Nodup) (hlt : ∀ x ∈ l, x < n)
    (hlen : l.length = n) : l.Perm (List.range n) := by
  have hsub : l ⊆ List.range n := fun x hx => List.mem_range.mpr (hlt x hx)
  have hsp : l.Subperm (List.range n) := List.subperm_of_subset hnd hsub
  exact hsp.perm_of_length_le (by simp [hlen])

theorem length_le_of_nodup {l : List Nat} {n : Nat} (hnd : l.Nodup) (hlt : ∀ x ∈ l, x < n) :
    l.length ≤ n := by
  have hsub : l ⊆ List.range n := fun x hx => List.mem_range.mpr (hlt x hx)
  have := (List.subperm_of_subset hnd hsub).length_le
  simpa using this

/-- What `Banker_getSafeSequence` returns, in terms of the final state of its
simulation loop. -/
theorem getSafeSequence_cases {b : BankerData} {res : Option (List Nat)}
    (h : Banker_getSafeSequence b = some res) :
    ∃ s0 s, simInit b = some s0 ∧ simulation b b.processCount.toNat s0 = some s ∧
      ((s.remainingProcesses > 0 ∧ res = none) ∨
       (¬ s.remainingProcesses > 0 ∧ res = some s.safeSequence)) := by
  unfold Banker_getSafeSequence at h
  cases h0 : simInit b with
  | none => simp [h0] at h
  | some s0 =>
    simp only [h0] at h
    cases h1 : simulation b b.processCount.toNat s0 with
    | none => simp [h1] at h
    | some s =>
      simp only [h1] at h
      refine ⟨s0, s, rfl, h1, ?_⟩
      by_cases hr : s.remainingProcesses > 0
      · rw [if_pos hr] at h
        exact Or.inl ⟨hr, (Option.some.inj h).symm⟩
      · rw [if_neg hr] at h
        exact Or.inr ⟨hr, (Option.some.inj h).symm⟩

/-- C4. Soundness of the safety oracle: a sequence returned by
`Banker_getSafeSequence` is a permutation of `0 .. P-1`, and the process at every
position `k` needs of every resource type `r` at most
`Available[r] + sum over j < k of Allocated[s[j]][r]`. -/
theorem getSafeSequence_sound (b : BankerData) (s : List Nat)
    (h : Banker_getSafeSequence b = some (some s)) :
    s.Perm (List.range b.processCount.toNat) ∧
    ∀ k, k < s.length → ∀ r, r < b.availableResourcesCount.toNat →
      needAt b (s.getD k 0) r ≤
        availableAt b r + ((s.take k).map (fun q => allocatedAt b q r)).sum := by
  obtain ⟨s0, st, h0, h1, hres⟩ := getSafeSequence_cases h
  rcases hres with ⟨_, hnone⟩ | ⟨hrem, hsome⟩
  · exact Option.noConfusion hnone
  · have hinv : SimInv b st := simulation_inv b _ s0 st h1 (simInit_inv h0)
    have hs : s = st.safeSequence := Option.some.inj hsome
    have hmark : st.safeSequenceMarker = b.processCount.toNat := by
      have h1 := hinv.remaining
      have h2 := hinv.markerLe
      omega
    have hdone : st.finishedOrder = s := by
      rw [hs, Sim.finishedOrder, hmark, ← hinv.seqLen, List.take_length]
    have hlt : ∀ x ∈ s, x < b.processCount.toNat := by
      intro x hx
      rw [← hdone] at hx
      have := getElem?_lt_of_some ((hinv.finished x).mp hx)
      rw [hinv.finLen] at this
      exact this
    refine ⟨perm_range_of_nodup (hdone ▸ hinv.nodup) hlt (by rw [hs, hinv.seqLen]), ?_⟩
    have hsafe := hinv.safe
    rw [hdone] at hsafe
    exact hsafe

theorem HasCells.get {m : List (List Int)} {P R p r : Nat} (h : HasCells m P R) (hp : p < P)
    (hr : r < R) : ∃ v, rd2N m p r = some v :=
  Option.isSome_iff_exists.mp (h p hp r hr)

/-- On a well-formed ledger a step of the pass does not fault. -/
theorem simulateProcess_total {b : BankerData} (hwf : WellFormed b) {p : Nat} {s : Sim}
    (hp : p < b.processCount.toNat) (hinv : SimInv b s) :
    ∃ s', simulateProcess b p s = some s' := by
  have hplt : p < s.hasFinished.length := by rw [hinv.finLen]; exact hp
  have hwlen : b.availableResourcesCount.toNat ≤ s.availableResourcesArray.length := by
    by_contra hlt
    have hlt' : s.availableResourcesArray.length < b.availableResourcesCount.toNat := by omega
    have := getElem?_lt_of_some (hinv.work _ hlt')
    omega
  obtain ⟨r', hscan⟩ := needScan_total b s.availableResourcesArray p
    b.availableResourcesCount.toNat 0 (by
      intro j _ hj
      exact ⟨hwf.required.get hp (by omega), _, hinv.work j (by omega)⟩)
  obtain ⟨work, hgive⟩ := giveBack_total b p b.availableResourcesCount.toNat
    s.availableResourcesArray (fun j hj => hwf.allocated.get hp hj) hwlen
  unfold simulateProcess
  rw [List.getElem?_eq_getElem hplt]
  simp only [hscan, hgive]
  by_cases hfin : s.hasFinished[p] ≠ 1
  · rw [if_pos hfin]
    by_cases hr : (r' : Int) = b.availableResourcesCount
    · rw [if_pos hr]
      have hpnot : p ∉ s.finishedOrder := by
        intro hmem
        have := (hinv.finished p).mp hmem
        rw [List.getElem?_eq_getElem hplt] at this
        exact hfin (Option.some.inj this)
      have hlen : (p :: s.finishedOrder).length ≤ b.processCount.toNat := by
        apply length_le_of_nodup (List.nodup_cons.mpr ⟨hpnot, hinv.nodup⟩)
        intro x hx
        rcases List.mem_cons.mp hx with rfl | hx
        · exact hp
        · have := getElem?_lt_of_some ((hinv.finished x).mp hx)
          rw [hinv.finLen] at this
          exact this
      have hm : s.safeSequenceMarker < s.safeSequence.length := by
        have h1 : s.finishedOrder.length = s.safeSequenceMarker := by
          simp only [Sim.finishedOrder, List.length_take]
          have := hinv.markerLe
          have := hinv.seqLen
          omega
        simp only [List.length_cons] at hlen
        rw [hinv.seqLen]
        omega
      simp only [storeN, if_pos hm]
      exact ⟨_, rfl⟩
    · rw [if_neg hr]; exact ⟨_, rfl⟩
  · rw [if_neg hfin]; exact ⟨_, rfl⟩

/-- On a well-formed ledger a pass does not fault. -/
theorem pass_total {b : BankerData} (hwf : WellFormed b) {s : Sim} (hinv : SimInv b s) :
    ∃ s', forRange (simulateProcess b) b.processCount.toNat 0 s = some s' ∧ SimInv b s' := by
  have hstep : ∀ j t, 0 ≤ j → j < 0 + b.processCount.toNat → SimInv b t →
      ∃ t', simulateProcess b j t = some t' ∧ SimInv b t' := by
    intro j t _ hj ht
    obtain ⟨t', ht'⟩ := simulateProcess_total hwf (p := j) (by omega) ht
    exact ⟨t', ht', simulateProcess_inv ht' ht⟩
  obtain ⟨s', h1, h2⟩ := forRange_total (simulateProcess b) (fun _ t => SimInv b t)
    b.processCount.toNat 0 s hstep hinv
  exact ⟨s', h1, h2⟩

/-- Outcome of a pass that starts with the flag cleared: either nothing changed and
every process was skipped, or the flag is set and at least one more process finished. -/
theorem pass_outcome {b : BankerData} {n : Nat} {s s' : Sim}
    (hflag : s.isStatePseudoSafe = 0)
    (h : forRange (simulateProcess b) n 0 s = some s') :
    (s' = s ∧ ∀ p, p < n → Skipped b s p) ∨
    (s'.isStatePseudoSafe = 1 ∧ s.safeSequenceMarker < s'.safeSequenceMarker ∧
      s'.remainingProcesses < s.remainingProcesses) := by
  have := forRange_inv (simulateProcess b)
    (fun k t => (t = s ∧ ∀ p, p < k → Skipped b s p) ∨
      (t.isStatePseudoSafe = 1 ∧ s.safeSequenceMarker < t.safeSequenceMarker ∧
        t.remainingProcesses < s.remainingProcesses))
    n 0 s s' ?_ ?_ h
  · simpa using this
  · intro j t t' _ _ ht hb
    rcases simulateProcess_cases hb with ⟨rfl, hskip⟩ | ⟨_, _, _, _, _, _, _, _, _, rfl⟩
    · rcases ht with ⟨rfl, hall⟩ | hprog
      · left
        refine ⟨rfl, ?_⟩
        intro p hp
        by_cases hpj : p = j
        · subst hpj; exact hskip
        · exact hall p (by omega)
      · exact Or.inr hprog
    · right
      rcases ht with ⟨rfl, _⟩ | ⟨_, h2, h3⟩
      · exact ⟨rfl, by simp, by simp⟩
      · exact ⟨rfl, by simp only; omega, by simp only; omega⟩
  · left
    exact ⟨rfl, fun p hp => by omega⟩

/-- On a well-formed ledger the simulation loop ends within `fuel` passes when
`fuel` is at least the number of remaining processes; it ends with no process
remaining, or after a pass that skipped every process. -/
theorem simulation_total {b : BankerData} (hwf : WellFormed b) :
    ∀ (fuel : Nat) (s : Sim), SimInv b s → s.remainingProcesses ≤ fuel →
      ∃ s', simulation b fuel s = some s' ∧
        (s'.remainingProcesses ≤ 0 ∨
          (0 < s'.remainingProcesses ∧ ∀ p, p < b.processCount.toNat → Skipped b s' p)) := by
  intro fuel
  induction fuel with
  | zero =>
    intro s _ hrem
    have hr : ¬ s.remainingProcesses > 0 := by
      simp only [Nat.cast_zero] at hrem; omega
    exact ⟨s, by simp only [simulation, if_neg hr], Or.inl (by omega)⟩
  | succ fuel ih =>
    intro s hinv hrem
    by_cases hr : s.remainingProcesses > 0
    · obtain ⟨t, ht, htinv⟩ := pass_total hwf hinv.resetFlag
      simp only [simulation, if_pos hr, ht]
      rcases pass_outcome rfl ht with ⟨rfl, hskip⟩ | ⟨hflag, _, hlt⟩
      · exact ⟨{ s with isStatePseudoSafe := 0 }, by rw [if_pos (by simp)], Or.inr ⟨hr, hskip⟩⟩
      · rw [if_neg (by simp [hflag])]
        apply ih t htinv
        simp only at hlt
        push_cast at hrem
        omega
    · exact ⟨s, by simp only [simulation, if_neg hr], Or.inl (by omega)⟩

/-- The first element of a list that fails `Q`, with the prefix before it. -/
theorem exists_first_not (Q : Nat → Prop) :
    ∀ σ : List Nat, (∃ x ∈ σ, ¬ Q x) →
      ∃ pre q post, σ = pre ++ q :: post ∧ (∀ x ∈ pre, Q x) ∧ ¬ Q q := by
  intro σ
  induction σ with
  | nil => intro ⟨x, hx, _⟩; simp at hx
  | cons y ys ih =>
    intro ⟨x, hx, hq⟩
    by_cases hy : Q y
    · have hx' : x ∈ ys := by
        rcases List.mem_cons.mp hx with rfl | h
        · exact absurd hy hq
        · exact h
      obtain ⟨pre, q, post, he, hpre, hnq⟩ := ih ⟨x, hx', hq⟩
      refine ⟨y :: pre, q, post, by simp [he], ?_, hnq⟩
      intro z hz
      rcases List.mem_cons.mp hz with rfl | h
      · exact hy
      · exact hpre z h
    · exact ⟨[], y, ys, rfl, fun z hz => by simp at hz, hy⟩

/-- Processes that hold nothing negative: a duplicate-free part of a list holds
at most what the list holds. -/
theorem heldBy_mono (b : BankerData) (r : Nat) {l₁ l₂ : List Nat} (hnd : l₁.Nodup)
    (hsub : ∀ x ∈ l₁, x ∈ l₂) (hnn : ∀ x ∈ l₂, 0 ≤ allocatedAt b x r) :
    heldBy b l₁ r ≤ heldBy b l₂ r := by
  obtain ⟨l, hperm, hsl⟩ := List.subperm_of_subset hnd hsub
  have h1 : heldBy b l₁ r = heldBy b l r := by
    unfold heldBy
    exact ((hperm.map _).sum_eq).symm
  rw [h1]
  unfold heldBy
  apply List.Sublist.sum_le_sum (hsl.map _)
  intro a ha
  obtain ⟨x, hx, rfl⟩ := List.mem_map.mp ha
  exact hnn x hx

/-- A pass that skips every process while some process remains shows that the
ledger has no safe order. -/
theorem stuck_contradiction {b : BankerData} (hwf : WellFormed b) {s : Sim} (hinv : SimInv b s)
    (hrem : 0 < s.remainingProcesses)
    (hskip : ∀ p, p < b.processCount.toNat → Skipped b s p)
    (hnn : ∀ p, p < b.processCount.toNat → ∀ r, r < b.availableResourcesCount.toNat →
      0 ≤ allocatedAt b p r)
    (σ : List Nat) (hperm : σ.Perm (List.range b.processCount.toNat))
    (hsafe : SafeOrder b σ) : False := by
  have hσnd : σ.Nodup := hperm.nodup_iff.mpr (List.nodup_range _)
  have hσlt : ∀ x ∈ σ, x < b.processCount.toNat := fun x hx =>
    List.mem_range.mp (hperm.subset hx)
  have hdonelt : ∀ x ∈ s.finishedOrder, x < b.processCount.toNat := by
    intro x hx
    have := getElem?_lt_of_some ((hinv.finished x).mp hx)
    rw [hinv.finLen] at this
    exact this
  have hlen : s.finishedOrder.length = s.safeSequenceMarker := by
    simp only [Sim.finishedOrder, List.length_take]
    have := hinv.markerLe
    have := hinv.seqLen
    omega
  have hmark : s.safeSequenceMarker < b.processCount.toNat := by
    have := hinv.remaining
    omega
  have hex : ∃ x ∈ σ, ¬ x ∈ s.finishedOrder := by
    by_contra hall
    push_neg at hall
    have := (List.subperm_of_subset hσnd hall).length_le
    rw [hperm.length_eq, List.length_range, hlen] at this
    omega
  obtain ⟨pre, q, post, hσ, hpre, hq⟩ := exists_first_not (fun x => x ∈ s.finishedOrder) σ hex
  have hqσ : q ∈ σ := by rw [hσ]; simp
  have hqlt := hσlt q hqσ
  have hprend : pre.Nodup := by
    rw [hσ] at hσnd
    exact (List.nodup_append.mp hσnd).1
  have hk : pre.length < σ.length := by rw [hσ]; simp
  have hget : σ.getD pre.length 0 = q := by
    rw [hσ, List.getD_append_right _ _ _ _ (le_refl _)]
    simp
  have htake : σ.take pre.length = pre := by
    rw [hσ, List.take_append_of_le_length (le_refl _), List.take_length]
  rcases hskip q hqlt with hfin | ⟨r', hscan, hne⟩
  · exact hq ((hinv.finished q).mpr hfin)
  · have := needScan_covered b _ q _ 0 r' hscan (by
      intro j _ hj w hw
      have hj' : j < b.availableResourcesCount.toNat := by omega
      rw [hinv.work j hj'] at hw
      rw [← Option.some.inj hw]
      have h1 := hsafe pre.length hk j hj'
      rw [hget, htake] at h1
      have h2 := heldBy_mono b j hprend hpre (fun x hx => hnn x (hdonelt x hx) j hj')
      omega)
    have hR := hwf.resources
    omega

/-- On a well-formed ledger `Banker_getSafeSequence` returns: it neither faults
nor needs more than `processCount` passes. -/
theorem getSafeSequence_total {b : BankerData} (hwf : WellFormed b) :
    ∃ s0 s, simInit b = some s0 ∧ simulation b b.processCount.toNat s0 = some s ∧
      SimInv b s ∧
      (s.remainingProcesses ≤ 0 ∨
        (0 < s.remainingProcesses ∧ ∀ p, p < b.processCount.toNat → Skipped b s p)) := by
  obtain ⟨work, hwork⟩ := copyAvailable_total b b.availableResourcesCount.toNat
    (List.replicate b.availableResourcesCount.toNat 0) hwf.available (by simp)
  have h0 : ∃ s0, simInit b = some s0 := by
    unfold simInit
    rw [hwork]
    exact ⟨_, rfl⟩
  obtain ⟨s0, h0⟩ := h0
  have hinv0 := simInit_inv h0
  have hrem0 : s0.remainingProcesses ≤ (b.processCount.toNat : Int) := by
    have := hinv0.remaining
    have := Int.self_le_toNat b.processCount
    omega
  obtain ⟨s, hs, hend⟩ := simulation_total hwf _ s0 hinv0 hrem0
  exact ⟨s0, s, h0, hs, simulation_inv b _ s0 s hs hinv0, hend⟩

/-- C5. Completeness of the safety oracle: on a well-formed ledger whose
Allocated entries are not negative, if some ordering of all `P` processes is a safe
sequence, then `Banker_getSafeSequence` returns a sequence (not `NULL`). -/
theorem getSafeSequence_complete (b : BankerData) (hwf : WellFormed b)
    (hnn : ∀ p, p < b.processCount.toNat → ∀ r, r < b.availableResourcesCount.toNat →
      0 ≤ allocatedAt b p r)
    (σ : List Nat) (hperm : σ.Perm (List.range b.processCount.toNat))
    (hsafe : ∀ k, k < σ.length → ∀ r, r < b.availableResourcesCount.toNat →
      needAt b (σ.getD k 0) r ≤
        availableAt b r + ((σ.take k).map (fun q => allocatedAt b q r)).sum) :
    ∃ s, Banker_getSafeSequence b = some (some s) := by
  obtain ⟨s0, st, h0, h1, hinv, hend⟩ := getSafeSequence_total hwf
  rcases hend with hdone | ⟨hrem, hskip⟩
  · refine ⟨st.safeSequence, ?_⟩
    unfold Banker_getSafeSequence
    simp only [h0, h1]
    rw [if_neg (by omega)]
  · exact (stuck_contradiction hwf hinv hrem hskip hnn σ hperm hsafe).elim

theorem cell_upd2N {m m' : List (List Int)} {p r : Nat} {f : Int → Int}
    (h : upd2N m p r f = some m') (q s : Nat) :
    cell m' q s = if q = p ∧ s = r then f (cell m p r) else cell m q s := by
  obtain ⟨row, v, hrow, hv, _⟩ := upd2N_eq_some h
  have hpr : rd2N m p r = some v := by rw [rd2N_of_row hrow, hv]
  unfold cell
  rw [rd2N_upd2N h q s, hpr]
  by_cases hqs : q = p ∧ s = r
  · simp [hqs]
  · simp [hqs]

theorem getD_updN {a a' : List Int} {i : Nat} {f : Int → Int}
    (h : updN a i f = some a') (j : Nat) :
    (a'[j]?).getD 0 = if j = i then f ((a[i]?).getD 0) else (a[j]?).getD 0 := by
  obtain ⟨v, hv, _⟩ := updN_eq_some h
  rw [getElem?_updN h j, hv]
  by_cases hj : j = i
  · simp [hj]
  · simp [hj]

/-- Three read-modify-writes of the cells `(p, r)` that add `δ` to Allocated and
take `δ` from Available and Need make up a move. -/
theorem moved_of_upd {b : BankerData} {p r : Nat} {δ : Int} {f g h : Int → Int}
    {alloc1 need1 : List (List Int)} {avail1 : List Int}
    (hf : f (allocatedAt b p r) = allocatedAt b p r + δ)
    (hg : g (availableAt b r) = availableAt b r - δ)
    (hh : h (needAt b p r) = needAt b p r - δ)
    (h1 : upd2N b.resourcesAllocatedMatrix p r f = some alloc1)
    (h2 : updN b.availableResourcesArray r g = some avail1)
    (h3 : upd2N b.resourcesRequiredMatrix p r h = some need1) :
    Moved b { b with resourcesAllocatedMatrix := alloc1
                     availableResourcesArray := avail1
                     resourcesRequiredMatrix := need1 } p r δ := by
  refine ⟨rfl, rfl, rfl, rfl, ?_, ?_, ?_⟩
  · intro q s
    simp only [allocatedAt] at hf ⊢
    rw [cell_upd2N h1 q s]
    by_cases hqs : q = p ∧ s = r
    · rw [if_pos hqs, if_pos hqs, hf, hqs.1, hqs.2]
    · rw [if_neg hqs, if_neg hqs, add_zero]
  · intro s
    simp only [availableAt] at hg ⊢
    rw [getD_updN h2 s]
    by_cases hs : s = r
    · rw [if_pos hs, if_pos hs, hg, hs]
    · rw [if_neg hs, if_neg hs, sub_zero]
  · intro q s
    simp only [needAt] at hh ⊢
    rw [cell_upd2N h3 q s]
    by_cases hqs : q = p ∧ s = r
    · rw [if_pos hqs, if_pos hqs, hh, hqs.1, hqs.2]
    · rw [if_neg hqs, if_neg hqs, sub_zero]

theorem sum_range_bump (f : Nat → Int) (p : Nat) (c : Prop) [Decidable c] (δ : Int) (n : Nat) :
    ((List.range n).map (fun q => f q + if q = p ∧ c then δ else 0)).sum =
      ((List.range n).map f).sum + if p < n ∧ c then δ else 0 := by
  induction n with
  | zero => simp
  | succ n ih =>
    rw [List.range_succ, List.map_append, List.sum_append, List.map_append, List.sum_append, ih]
    simp only [List.map_cons, List.map_nil, List.sum_cons, List.sum_nil, add_zero]
    by_cases hc : c
    · by_cases hpn : p < n
      · have h1 : ¬ n = p := by omega
        have h2 : p < n + 1 := by omega
        simp [hc, hpn, h1, h2]
        ring
      · by_cases hpe : n = p
        · have h2 : p < n + 1 := by omega
          simp [hc, hpn, hpe, h2]
          ring
        · have h2 : ¬ p < n + 1 := by omega
          simp [hc, hpn, hpe, h2]
    · simp [hc]

theorem Moved.conserved {total : List Int} {b b' : BankerData} {p r : Nat} {δ : Int}
    (hm : Moved b b' p r δ) (hp : p < b.processCount.toNat) (hc : Conserved total b) :
    Conserved total b' := by
  intro s hs
  rw [hm.resourcesCount] at hs
  rw [hm.processCount, ← hc s hs, hm.available s]
  unfold heldBy
  have : (fun q => allocatedAt b' q s) =
      (fun q => allocatedAt b q s + if q = p ∧ s = r then δ else 0) := by
    funext q; exact hm.allocated q s
  rw [this, sum_range_bump]
  by_cases hsr : s = r
  · simp [hsr, hp]
  · simp [hsr]

theorem Moved.needEquation {b b' : BankerData} {p r : Nat} {δ : Int} (hm : Moved b b' p r δ)
    (hn : NeedEquation b) : NeedEquation b' := by
  intro q hq s hs
  rw [hm.processCount] at hq
  rw [hm.resourcesCount] at hs
  have := hn q hq s hs
  rw [hm.required q s, hm.allocated q s, this]
  simp only [maximumAt, hm.demand]
  ring

theorem toNat_lt_of_le_pred {p n : Int} (h0 : 0 ≤ p) (h1 : p ≤ n - 1) : p.toNat < n.toNat := by
  omega

/-- A granted request is a move of `count` instances to the process. -/
theorem request_moved {b b' : BankerData} {p r c rc : Int}
    (h : Banker_requestResource b p r c = some (rc, b')) :
    b' = b ∨ (Moved b b' p.toNat r.toNat c ∧ p.toNat < b.processCount.toNat) := by
  rcases request_cases h with ⟨_, hb⟩ |
    ⟨_, hp0, hp1, hr0, hr1, _, alloc1, avail1, need1, h1, h2, h3, hb, _⟩
  · exact Or.inl hb
  · right
    have hneg : ¬ (p < 0 ∨ r < 0) := by omega
    have hrneg : ¬ r < 0 := by omega
    unfold upd2 at h1 h3
    unfold upd at h2
    rw [if_neg hneg] at h1 h3
    rw [if_neg hrneg] at h2
    subst hb
    exact ⟨moved_of_upd rfl rfl rfl h1 h2 h3, toNat_lt_of_le_pred hp0 hp1⟩

/-- Outcomes of `Banker_freeResource`: the code -1 and the ledger it was given
when an index is out of range, else the code 1 and the ledger after `k`
instances went back, `k` being `count` clamped to `Allocated[p][r]`. -/
theorem free_cases {b b' : BankerData} {p r c rc : Int}
    (h : Banker_freeResource b p r c = some (rc, b')) :
    (rc = -1 ∧ b' = b ∧
      (r < 0 ∨ r > b.availableResourcesCount - 1 ∨ p < 0 ∨ p > b.processCount - 1)) ∨
    (rc = 1 ∧ 0 ≤ p ∧ p ≤ b.processCount - 1 ∧ 0 ≤ r ∧ r ≤ b.availableResourcesCount - 1 ∧
      ∃ a alloc1 avail1 need1,
        rd2N b.resourcesAllocatedMatrix p.toNat r.toNat = some a ∧
        upd2N b.resourcesAllocatedMatrix p.toNat r.toNat
          (fun v => v - (if c > a then a else c)) = some alloc1 ∧
        updN b.availableResourcesArray r.toNat (fun v => v + (if c > a then a else c)) =
          some avail1 ∧
        upd2N b.resourcesRequiredMatrix p.toNat r.toNat
          (fun v => v + (if c > a then a else c)) = some need1 ∧
        b' = { b with resourcesAllocatedMatrix := alloc1
                      availableResourcesArray := avail1
                      resourcesRequiredMatrix := need1 }) := by
  unfold Banker_freeResource at h
  by_cases hbad : r < 0 ∨ r > b.availableResourcesCount - 1 ∨ p < 0 ∨ p > b.processCount - 1
  · rw [if_pos hbad] at h
    simp only [Option.some.injEq, Prod.mk.injEq] at h
    exact Or.inl ⟨h.1.symm, h.2.symm, hbad⟩
  rw [if_neg hbad] at h
  have hneg : ¬ (p < 0 ∨ r < 0) := by omega
  have hrneg : ¬ r < 0 := by omega
  unfold upd2 upd rd2 at h
  simp only [if_neg hneg, if_neg hrneg] at h
  cases ha : rd2N b.resourcesAllocatedMatrix p.toNat r.toNat with
  | none => simp [ha] at h
  | some a =>
  simp only [ha] at h
  cases h1 : upd2N b.resourcesAllocatedMatrix p.toNat r.toNat
      (fun v => v - (if c > a then a else c)) with
  | none => simp [h1] at h
  | some alloc1 =>
  cases h2 : updN b.availableResourcesArray r.toNat (fun v => v + (if c > a then a else c)) with
  | none => simp [h1, h2] at h
  | some avail1 =>
  cases h3 : upd2N b.resourcesRequiredMatrix p.toNat r.toNat
      (fun v => v + (if c > a then a else c)) with
  | none => simp [h1, h2, h3] at h
  | some need1 =>
  simp only [h1, h2, h3, Option.some.injEq, Prod.mk.injEq] at h
  right
  exact ⟨h.1.symm, by omega, by omega, by omega, by omega, a, alloc1, avail1, need1, rfl,
    h1, h2, h3, h.2.symm⟩

/-- A successful release is a move of `-k` instances, `k` the clamped count. -/
theorem free_moved {b b' : BankerData} {p r c rc : Int}
    (h : Banker_freeResource b p r c = some (rc, b')) :
    b' = b ∨ (p.toNat < b.processCount.toNat ∧
      Moved b b' p.toNat r.toNat
        (-(if c > allocatedAt b p.toNat r.toNat then allocatedAt b p.toNat r.toNat else c))) := by
  rcases free_cases h with ⟨_, hb, _⟩ |
    ⟨_, hp0, hp1, _, _, a, alloc1, avail1, need1, ha, h1, h2, h3, hb⟩
  · exact Or.inl hb
  · right
    subst hb
    have hcell : allocatedAt b p.toNat r.toNat = a := cell_of_rd2N ha
    rw [hcell]
    exact ⟨toNat_lt_of_le_pred hp0 hp1,
      moved_of_upd (by simp [sub_eq_add_neg]) (by simp) (by simp) h1 h2 h3⟩

/-- One round of the loop of `Banker_freeAllResources` moves everything the
process holds of resource type `i` back to the free pool. -/
theorem freeAllStep_moved {b b' : BankerData} {p i : Nat} (h : freeAllStep p i b = some b') :
    Moved b b' p i (-(allocatedAt b p i)) := by
  unfold freeAllStep at h
  cases ha : rd2N b.resourcesAllocatedMatrix p i with
  | none => simp [ha] at h
  | some a =>
  simp only [ha] at h
  cases h1 : updN b.availableResourcesArray i (fun v => v + a) with
  | none => simp [h1] at h
  | some avail1 =>
  cases h2 : upd2N b.resourcesRequiredMatrix p i (fun v => v + a) with
  | none => simp [h1, h2] at h
  | some need1 =>
  cases h3 : upd2N b.resourcesAllocatedMatrix p i (fun _ => 0) with
  | none => simp [h1, h2, h3] at h
  | some alloc1 =>
  simp only [h1, h2, h3, Option.some.injEq] at h
  subst h
  have hcell : allocatedAt b p i = a := cell_of_rd2N ha
  rw [hcell]
  exact moved_of_upd (by simp [hcell]) (by simp) (by simp) h3 h1 h2

/-- Outcomes of `Banker_freeAllResources`. -/
theorem freeAll_cases {b b' : BankerData} {p rc : Int}
    (h : Banker_freeAllResources b p = some (rc, b')) :
    (rc = -1 ∧ b' = b ∧ (p < 0 ∨ p > b.processCount - 1)) ∨
    (rc = 1 ∧ 0 ≤ p ∧ p ≤ b.processCount - 1 ∧
      forRange (freeAllStep p.toNat) b.availableResourcesCount.toNat 0 b = some b') := by
  unfold Banker_freeAllResources at h
  by_cases hbad : p < 0 ∨ p > b.processCount - 1
  · rw [if_pos hbad] at h
    simp only [Option.some.injEq, Prod.mk.injEq] at h
    exact Or.inl ⟨h.1.symm, h.2.symm, hbad⟩
  rw [if_neg hbad] at h
  cases hl : forRange (freeAllStep p.toNat) b.availableResourcesCount.toNat 0 b with
  | none => simp [hl] at h
  | some b1 =>
    simp only [hl, Option.some.injEq, Prod.mk.injEq] at h
    right
    exact ⟨h.1.symm, by omega, by omega, by rw [h.2]⟩

/-- A property of ledgers that every move to or from a process of the ledger
keeps is kept by the three calls of the allocation service. -/
theorem calls_preserve (I : BankerData → Prop)
    (hI : ∀ b b' p r δ, Moved b b' p r δ → p < b.processCount.toNat → I b → I b') :
    (∀ b p r c rc b', I b → Banker_requestResource b p r c = some (rc, b') → I b') ∧
    (∀ b p r c rc b', I b → Banker_freeResource b p r c = some (rc, b') → I b') ∧
    (∀ b p rc b', I b → Banker_freeAllResources b p = some (rc, b') → I b') := by
  refine ⟨?_, ?_, ?_⟩
  · intro b p r c rc b' hb h
    rcases request_moved h with rfl | ⟨hm, hp⟩
    · exact hb
    · exact hI _ _ _ _ _ hm hp hb
  · intro b p r c rc b' hb h
    rcases free_moved h with rfl | ⟨hp, hm⟩
    · exact hb
    · exact hI _ _ _ _ _ hm hp hb
  · intro b p rc b' hb h
    rcases freeAll_cases h with ⟨_, rfl, _⟩ | ⟨_, hp0, hp1, hl⟩
    · exact hb
    · have := forRange_inv (freeAllStep p.toNat)
        (fun _ t => I t ∧ t.processCount = b.processCount)
        b.availableResourcesCount.toNat 0 b b' ?_ ⟨hb, rfl⟩ hl
      · exact this.1
      · intro j t t' _ _ ht hstep
        have hm := freeAllStep_moved hstep
        refine ⟨hI _ _ _ _ _ hm ?_ ht.1, by rw [hm.processCount, ht.2]⟩
        rw [ht.2]
        exact toNat_lt_of_le_pred hp0 hp1

theorem sumStep_loop (alloc : List (List Int)) (r n : Nat) (acc0 sum : Int)
    (h : forRange (sumStep alloc r) n 0 acc0 = some sum) :
    sum = acc0 + ((List.range n).map (fun p => cell alloc p r)).sum := by
  have := forRange_inv (sumStep alloc r)
    (fun k acc => acc = acc0 + ((List.range k).map (fun p => cell alloc p r)).sum)
    n 0 acc0 sum ?_ ?_ h
  · simpa using this
  · intro j t t' _ _ ht hb
    unfold sumStep at hb
    cases ha : rd2N alloc j r with
    | none => simp [ha] at hb
    | some a =>
      simp only [ha, Option.some.injEq] at hb
      rw [← hb, ht, List.range_succ, List.map_append, List.sum_append]
      simp only [List.map_cons, List.map_nil, List.sum_cons, List.sum_nil, add_zero,
        cell_of_rd2N ha]
      ring
  · simp

theorem availStep_loop (P : Int) (cap : List Int) (alloc : List (List Int)) (n : Nat)
    (w0 avail : List Int)
    (h : forRange (availStep P cap alloc) n 0 w0 = some avail) :
    ∀ r, r < n → (avail[r]?).getD 0 + ((List.range P.toNat).map (fun p => cell alloc p r)).sum =
      (cap[r]?).getD 0 := by
  have := forRange_inv (availStep P cap alloc)
    (fun k w => ∀ r, r < k →
      (w[r]?).getD 0 + ((List.range P.toNat).map (fun p => cell alloc p r)).sum =
        (cap[r]?).getD 0)
    n 0 w0 avail ?_ ?_ h
  · simpa using this
  · intro j t t' _ _ ht hb
    unfold availStep at hb
    cases hs : forRange (sumStep alloc j) P.toNat 0 0 with
    | none => simp [hs] at hb
    | some sum =>
      cases hc : cap[j]? with
      | none => simp [hs, hc] at hb
      | some c =>
        simp only [hs, hc] at hb
        have hsum := sumStep_loop alloc j _ 0 sum hs
        intro r hr
        rw [getD_updN hb r]
        by_cases hrj : r = j
        · subst hrj
          rw [if_pos rfl, hc, hsum]
          simp
        · rw [if_neg hrj]
          exact ht r (by omega)
  · intro r hr; omega

theorem needStep_loop (dem alloc : List (List Int)) (p n : Nat) (m0 m : List (List Int))
    (h : forRange (needStep dem alloc p) n 0 m0 = some m) :
    (∀ r, r < n → cell m p r = cell dem p r - cell alloc p r) ∧
    (∀ q r, q ≠ p → cell m q r = cell m0 q r) := by
  have := forRange_inv (needStep dem alloc p)
    (fun k t => (∀ r, r < k → cell t p r = cell dem p r - cell alloc p r) ∧
      (∀ q r, q ≠ p → cell t q r = cell m0 q r))
    n 0 m0 m ?_ ?_ h
  · simpa using this
  · intro j t t' _ _ ht hb
    unfold needStep at hb
    cases hd : rd2N dem p j with
    | none => simp [hd] at hb
    | some d =>
      cases ha : rd2N alloc p j with
      | none => simp [hd, ha] at hb
      | some a =>
        simp only [hd, ha] at hb
        refine ⟨?_, ?_⟩
        · intro r hr
          rw [cell_upd2N hb p r]
          by_cases hrj : r = j
          · subst hrj
            simp [cell_of_rd2N hd, cell_of_rd2N ha]
          · have : ¬ (p = p ∧ r = j) := fun e => hrj e.2
            rw [if_neg this]
            exact ht.1 r (by omega)
        · intro q r hq
          rw [cell_upd2N hb q r]
          have : ¬ (q = p ∧ r = j) := fun e => hq e.1
          rw [if_neg this]
          exact ht.2 q r hq
  · exact ⟨fun r hr => by omega, fun _ _ _ => rfl⟩

theorem needRow_loop (R : Int) (dem alloc : List (List Int)) (n : Nat)
    (m0 need : List (List Int))
    (h : forRange (needRow R dem alloc) n 0 m0 = some need) :
    ∀ p, p < n → ∀ r, r < R.toNat → cell need p r = cell dem p r - cell alloc p r := by
  have := forRange_inv (needRow R dem alloc)
    (fun k t => ∀ p, p < k → ∀ r, r < R.toNat → cell t p r = cell dem p r - cell alloc p r)
    n 0 m0 need ?_ ?_ h
  · simpa using this
  · intro j t t' _ _ ht hb
    unfold needRow at hb
    obtain ⟨h1, h2⟩ := needStep_loop dem alloc j _ t t' hb
    intro p hp r hr
    by_cases hpj : p = j
    · subst hpj; exact h1 r hr
    · rw [h2 p r hpj]; exact ht p (by omega) r hr
  · intro p hp; omega

/-- Outcomes of `Banker_init`. -/
theorem init_cases {sz : Sizes} {data b0 : BankerData} {R P rc : Int} {cap : List Int}
    {dem alloc : List (List Int)}
    (h : Banker_init sz data R P cap dem alloc = some (rc, b0)) :
    (rc = -1 ∧ b0 = data ∧ R < 1) ∨
    (rc = 1 ∧ 1 ≤ R ∧ ∃ avail rows need,
      forRange (availStep P cap alloc) R.toNat 0 (List.replicate R.toNat 0) = some avail ∧
      forRange (allocRow sz R P) P.toNat 0 [] = some rows ∧
      forRange (needRow R dem alloc) P.toNat 0 rows = some need ∧
      b0 = { processCount := P
             availableResourcesCount := R
             maxResourcesArray := cap
             availableResourcesArray := avail
             resourcesDemandMatrix := dem
             resourcesAllocatedMatrix := alloc
             resourcesRequiredMatrix := need }) := by
  unfold Banker_init at h
  by_cases hR : R < 1
  · rw [if_pos hR] at h
    simp only [Option.some.injEq, Prod.mk.injEq] at h
    exact Or.inl ⟨h.1.symm, h.2.symm, hR⟩
  rw [if_neg hR] at h
  cases h1 : forRange (availStep P cap alloc) R.toNat 0 (List.replicate R.toNat 0) with
  | none => simp [h1] at h
  | some avail =>
  cases hrows : forRange (allocRow sz R P) P.toNat 0 [] with
  | none => simp [h1, hrows] at h
  | some rows =>
  cases h2 : forRange (needRow R dem alloc) P.toNat 0 rows with
  | none => simp [h1, hrows, h2] at h
  | some need =>
  simp only [h1, hrows, h2, Option.some.injEq, Prod.mk.injEq] at h
  right
  exact ⟨h.1.symm, by omega, avail, rows, need, rfl, rfl, h2, h.2.symm⟩

/-- A ledger that `Banker_init` built keeps the capacities it was given and
satisfies conservation for them, and the need equation. -/
theorem init_invariants {sz : Sizes} {data b0 : BankerData} {R P : Int} {cap : List Int}
    {dem alloc : List (List Int)}
    (h : Banker_init sz data R P cap dem alloc = some (1, b0)) :
    b0.maxResourcesArray = cap ∧ Conserved cap b0 ∧ NeedEquation b0 := by
  rcases init_cases h with ⟨hrc, _⟩ | ⟨_, _, avail, rows, need, h1, _, h2, rfl⟩
  · omega
  · refine ⟨rfl, ?_, ?_⟩
    · intro r hr
      exact availStep_loop P cap alloc _ _ avail h1 r hr
    · intro p hp r hr
      exact needRow_loop R dem alloc _ _ need h2 p hp r hr

theorem granted_request_frame_witness :
    Banker_requestResource classic 1 0 1 = some (1, classicGranted) ∧
    classicGranted.resourcesDemandMatrix = classic.resourcesDemandMatrix :=
  ⟨by decide, (granted_request_frame classic classicGranted 1 0 1 (by decide)).2.2.2.1⟩

theorem getSafeSequence_sound_witness :
    Banker_getSafeSequence classic = some (some [1, 3, 4, 0, 2]) ∧
    [1, 3, 4, 0, 2].Perm (List.range classic.processCount.toNat) :=
  ⟨by decide, (getSafeSequence_sound classic [1, 3, 4, 0, 2] (by decide)).1⟩

theorem classic_wellFormed : WellFormed classic :=
  ⟨by decide, by decide, by decide, by unfold HasCells; decide, by unfold HasCells; decide,
    by unfold HasCells; decide⟩

theorem getSafeSequence_complete_witness :
    ∃ s, Banker_getSafeSequence classic = some (some s) :=
  getSafeSequence_complete classic classic_wellFormed (by decide) [1, 3, 4, 0, 2] (by decide)
    (by decide)

/-- C6. Conservation: right after `Banker_init` succeeds,
`Available[r] + Σ_p Allocated[p][r]` equals the capacity `Total[r]` handed to it,
for every resource type `r`; and every call of `Banker_requestResource`,
`Banker_freeResource` and `Banker_freeAllResources` that returns, with whatever
arguments and return code, keeps this equation. -/
theorem conservation :
    (∀ sz data R P total dem alloc b0,
      Banker_init sz data R P total dem alloc = some (1, b0) → Conserved total b0) ∧
    (∀ total b p r c rc b', Conserved total b →
      Banker_requestResource b p r c = some (rc, b') → Conserved total b') ∧
    (∀ total b p r c rc b', Conserved total b →
      Banker_freeResource b p r c = some (rc, b') → Conserved total b') ∧
    (∀ total b p rc b', Conserved total b →
      Banker_freeAllResources b p = some (rc, b') → Conserved total b') := by
  refine ⟨fun sz data R P total dem alloc b0 h => (init_invariants h).2.1, ?_, ?_, ?_⟩
  · intro total
    exact (calls_preserve (Conserved total)
      (fun _ _ _ _ _ hm hp hc => hm.conserved hp hc)).1
  · intro total
    exact (calls_preserve (Conserved total)
      (fun _ _ _ _ _ hm hp hc => hm.conserved hp hc)).2.1
  · intro total
    exact (calls_preserve (Conserved total)
      (fun _ _ _ _ _ hm hp hc => hm.conserved hp hc)).2.2

theorem conservation_witness :
    Conserved [10, 5, 7] classic ∧ Conserved [10, 5, 7] classicGranted ∧
    Conserved [10, 5, 7] classicReleased :=
  have h0 : Conserved [10, 5, 7] classic :=
    conservation.1 ilp32 blank 3 5 [10, 5, 7] classic.resourcesDemandMatrix
      classic.resourcesAllocatedMatrix classic (by decide)
  have h1 : Conserved [10, 5, 7] classicGranted :=
    conservation.2.1 [10, 5, 7] classic 1 0 1 1 classicGranted h0 (by decide)
  ⟨h0, h1, conservation.2.2.2 [10, 5, 7] classicGranted 1 1 classicReleased h1 (by decide)⟩

/-- C7. Need equation: right after `Banker_init` succeeds,
`Need[p][r] = Maximum[p][r] - Allocated[p][r]` for every process `p` and resource
type `r`; and every call of `Banker_requestResource`, `Banker_freeResource` and
`Banker_freeAllResources` that returns, with whatever arguments and return code,
keeps this equation. -/
theorem need_equation :
    (∀ sz data R P total dem alloc b0,
      Banker_init sz data R P total dem alloc = some (1, b0) → NeedEquation b0) ∧
    (∀ b p r c rc b', NeedEquation b →
      Banker_requestResource b p r c = some (rc, b') → NeedEquation b') ∧
    (∀ b p r c rc b', NeedEquation b →
      Banker_freeResource b p r c = some (rc, b') → NeedEquation b') ∧
    (∀ b p rc b', NeedEquation b →
      Banker_freeAllResources b p = some (rc, b') → NeedEquation b') :=
  ⟨fun _ _ _ _ _ _ _ _ h => (init_invariants h).2.2,
    (calls_preserve NeedEquation (fun _ _ _ _ _ hm _ hn => hm.needEquation hn)).1,
    (calls_preserve NeedEquation (fun _ _ _ _ _ hm _ hn => hm.needEquation hn)).2.1,
    (calls_preserve NeedEquation (fun _ _ _ _ _ hm _ hn => hm.needEquation hn)).2.2⟩

theorem need_equation_witness :
    NeedEquation classic ∧ NeedEquation tiny ∧
    (Banker_freeResource tiny 0 0 (-1)).isSome = true ∧
    ∀ b', Banker_freeResource tiny 0 0 (-1) = some (1, b') → NeedEquation b' :=
  have h0 : NeedEquation classic :=
    need_equation.1 ilp32 blank 3 5 [10, 5, 7] classic.resourcesDemandMatrix
      classic.resourcesAllocatedMatrix classic (by decide)
  have h1 : NeedEquation tiny :=
    need_equation.1 ilp32 blank 1 1 [1] [[1]] [[1]] tiny (by decide)
  ⟨h0, h1, by decide, fun b' h => need_equation.2.2.1 tiny 0 0 (-1) 1 b' h1 h⟩

/-- C8 fails on the code. The ledger `tiny` is what `Banker_init` builds from capacity
1, maximum 1 and initial allocation 1 (on a machine whose pointers are no wider than
an `int`, where its row-pointer array is large enough), so `0 ≤ Allocated ≤ Maximum`
holds there; `Banker_freeResource (0, 0, -1)` then returns success and leaves
`Allocated[0][0] = 2 > Maximum[0][0] = 1`, `Need[0][0] = -1` and `Available[0] = -1`. -/
theorem freeResource_negative_count_breaks_bounds :
    Banker_init ilp32 blank 1 1 [1] [[1]] [[1]] = some (1, tiny) ∧
    (0 ≤ allocatedAt tiny 0 0 ∧ allocatedAt tiny 0 0 ≤ maximumAt tiny 0 0) ∧
    Banker_freeResource tiny 0 0 (-1) =
      some (1, { tiny with availableResourcesArray := [-1]
                           resourcesAllocatedMatrix := [[2]]
                           resourcesRequiredMatrix := [[-1]] }) := by
  decide

/-- C9 fails on the code. On the ledger `classic` process 0 asks for 8 instances of
resource type 0, more than its need (7) and more than is available (3): the code
returns -5 (unavailable), not -3 (over-claim), because the later test overwrites the
return code of the earlier one. -/
theorem request_overclaim_and_unavailable_returns_minus5 :
    rd2 classic.resourcesRequiredMatrix 0 0 = some 7 ∧
    rd classic.availableResourcesArray 0 = some 3 ∧
    Banker_requestResource classic 0 0 8 = some (-5, classic) := by
  decide

/-- C10 fails on the code. On the ledger `classic`, which has resource types 0, 1, 2,
a request of process 0 with resource index 3 (or -1) does not return -1: after
setting the return code the code goes on to read `Allocated[0][3]`, outside the row. -/
theorem request_invalid_resource_reads_out_of_bounds :
    rd2 classic.resourcesAllocatedMatrix 0 3 = none ∧
    Banker_requestResource classic 0 3 0 = none ∧
    Banker_requestResource classic 0 (-1) 0 = none := by
  decide

theorem updN_length {a a' : List Int} {i : Nat} {f : Int → Int} (h : updN a i f = some a') :
    a'.length = a.length := by
  obtain ⟨v, _, rfl⟩ := updN_eq_some h
  simp

theorem updN_total {a : List Int} {i : Nat} (f : Int → Int) (h : i < a.length) :
    ∃ a', updN a i f = some a' := by
  unfold updN
  rw [List.getElem?_eq_getElem h]
  exact ⟨_, rfl⟩

theorem upd2N_total {m : List (List Int)} {p r : Nat} (f : Int → Int)
    (h : (rd2N m p r).isSome = true) : ∃ m', upd2N m p r f = some m' := by
  obtain ⟨v, hv⟩ := Option.isSome_iff_exists.mp h
  obtain ⟨row, hrow, hcell⟩ := rd2N_eq_some hv
  obtain ⟨row', hrow'⟩ := updN_total f (getElem?_lt_of_some hcell)
  unfold upd2N
  rw [hrow]
  simp only [hrow']
  exact ⟨_, rfl⟩

theorem upd2N_hasCells {m m' : List (List Int)} {p r P R : Nat} {f : Int → Int}
    (h : upd2N m p r f = some m') (hc : HasCells m P R) : HasCells m' P R := by
  intro q hq s hs
  rw [rd2N_upd2N h q s]
  by_cases hqs : q = p ∧ s = r
  · rw [if_pos hqs]
    have := hc q hq s hs
    rw [hqs.1, hqs.2] at this
    obtain ⟨v, hv⟩ := Option.isSome_iff_exists.mp this
    simp [hv]
  · rw [if_neg hqs]; exact hc q hq s hs

theorem upd2N_row_ne {m m' : List (List Int)} {p r q : Nat} {f : Int → Int}
    (h : upd2N m p r f = some m') (hq : q ≠ p) : m'[q]? = m[q]? := by
  obtain ⟨row, v, _, _, rfl⟩ := upd2N_eq_some h
  exact List.getElem?_set_ne (fun e => hq e.symm)

/-- Writing back the value a cell holds leaves the array as it is. -/
theorem updN_same {a : List Int} {i : Nat} {f : Int → Int} {v : Int} (hv : a[i]? = some v)
    (hf : f v = v) : updN a i f = some a := by
  unfold updN
  rw [hv]
  simp only [hf, set_same hv]

theorem upd2N_same {m : List (List Int)} {p r : Nat} {f : Int → Int} {v : Int}
    (hv : rd2N m p r = some v) (hf : f v = v) : upd2N m p r f = some m := by
  obtain ⟨row, hrow, hcell⟩ := rd2N_eq_some hv
  unfold upd2N
  rw [hrow]
  simp only [updN_same hcell hf, set_same hrow]

/-- The three calls keep the ledger well-formed: a write of one cell. -/
theorem wellFormed_of_upd {b : BankerData} (hwf : WellFormed b) {p r p' r' : Nat}
    {f g h : Int → Int} {alloc1 need1 : List (List Int)} {avail1 : List Int}
    (h1 : upd2N b.resourcesAllocatedMatrix p r f = some alloc1)
    (h2 : updN b.availableResourcesArray r' g = some avail1)
    (h3 : upd2N b.resourcesRequiredMatrix p' r h = some need1) :
    WellFormed { b with resourcesAllocatedMatrix := alloc1
                        availableResourcesArray := avail1
                        resourcesRequiredMatrix := need1 } :=
  ⟨hwf.resources, hwf.capacity, by simp only [updN_length h2]; exact hwf.available, hwf.demand,
    upd2N_hasCells h1 hwf.allocated, upd2N_hasCells h3 hwf.required⟩

theorem free_wellFormed {b b' : BankerData} {p r c rc : Int}
    (h : Banker_freeResource b p r c = some (rc, b')) (hwf : WellFormed b) : WellFormed b' := by
  rcases free_cases h with ⟨_, rfl, _⟩ | ⟨_, _, _, _, _, a, alloc1, avail1, need1, _, h1, h2, h3, rfl⟩
  · exact hwf
  · exact wellFormed_of_upd hwf h1 h2 h3

/-- On a well-formed ledger `Banker_freeResource` with valid indices returns 1. -/
theorem free_total {b : BankerData} (hwf : WellFormed b) {p r : Int} (c : Int)
    (hp0 : 0 ≤ p) (hp1 : p < b.processCount) (hr0 : 0 ≤ r)
    (hr1 : r < b.availableResourcesCount) :
    ∃ b', Banker_freeResource b p r c = some (1, b') := by
  have hp : p.toNat < b.processCount.toNat := by omega
  have hr : r.toNat < b.availableResourcesCount.toNat := by omega
  obtain ⟨a, ha⟩ := hwf.allocated.get hp hr
  obtain ⟨alloc1, h1⟩ := upd2N_total (fun v => v - (if c > a then a else c))
    (hwf.allocated p.toNat hp r.toNat hr)
  obtain ⟨avail1, h2⟩ := updN_total (a := b.availableResourcesArray)
    (fun v => v + (if c > a then a else c)) (i := r.toNat) (by have := hwf.available; omega)
  obtain ⟨need1, h3⟩ := upd2N_total (fun v => v + (if c > a then a else c))
    (hwf.required p.toNat hp r.toNat hr)
  have hbad : ¬ (r < 0 ∨ r > b.availableResourcesCount - 1 ∨ p < 0 ∨ p > b.processCount - 1) := by
    omega
  have hneg : ¬ (p < 0 ∨ r < 0) := by omega
  have hrneg : ¬ r < 0 := by omega
  unfold Banker_freeResource
  rw [if_neg hbad]
  unfold upd2 upd rd2
  simp only [if_neg hneg, if_neg hrneg, ha, h1, h2, h3]
  exact ⟨_, rfl⟩

/-- A successful release is a move of `-k` instances, `k` the clamped count. -/
theorem free_moved_of_success {b b' : BankerData} {p r c : Int}
    (h : Banker_freeResource b p r c = some (1, b')) :
    p.toNat < b.processCount.toNat ∧
      Moved b b' p.toNat r.toNat
        (-(if c > allocatedAt b p.toNat r.toNat then allocatedAt b p.toNat r.toNat else c)) := by
  rcases free_cases h with ⟨hrc, _⟩ |
    ⟨_, hp0, hp1, _, _, a, alloc1, avail1, need1, ha, h1, h2, h3, hb⟩
  · omega
  · subst hb
    have hcell : allocatedAt b p.toNat r.toNat = a := cell_of_rd2N ha
    rw [hcell]
    exact ⟨toNat_lt_of_le_pred hp0 hp1,
      moved_of_upd (by simp [sub_eq_add_neg]) (by simp) (by simp) h1 h2 h3⟩

/-- C11. On a well-formed ledger with `Allocated[p][r] ≥ 0` and valid indices,
`Banker_freeResource (p, r, count)` returns success and, with
`k = min count Allocated[p][r]`, leaves `Allocated[p][r] - k`, `Available[r] + k` and
`Need[p][r] + k` in the three cells; `Allocated[p][r]` is not negative afterwards, and
when `count` exceeds the held amount it is 0 and the same call repeated on the new
ledger returns success and leaves that ledger as it is. -/
theorem freeResource_clamped (b : BankerData) (p r c : Int) (hwf : WellFormed b)
    (hp0 : 0 ≤ p) (hp1 : p < b.processCount) (hr0 : 0 ≤ r)
    (hr1 : r < b.availableResourcesCount)
    (ha : 0 ≤ allocatedAt b p.toNat r.toNat) :
    ∃ b', Banker_freeResource b p r c = some (1, b') ∧
      allocatedAt b' p.toNat r.toNat =
        allocatedAt b p.toNat r.toNat - min c (allocatedAt b p.toNat r.toNat) ∧
      availableAt b' r.toNat = availableAt b r.toNat + min c (allocatedAt b p.toNat r.toNat) ∧
      needAt b' p.toNat r.toNat =
        needAt b p.toNat r.toNat + min c (allocatedAt b p.toNat r.toNat) ∧
      0 ≤ allocatedAt b' p.toNat r.toNat ∧
      (c > allocatedAt b p.toNat r.toNat →
        allocatedAt b' p.toNat r.toNat = 0 ∧ Banker_freeResource b' p r c = some (1, b')) := by
  obtain ⟨b', hb'⟩ := free_total hwf c hp0 hp1 hr0 hr1
  have hwf' := free_wellFormed hb' hwf
  have hmin : min c (allocatedAt b p.toNat r.toNat) =
      if c > allocatedAt b p.toNat r.toNat then allocatedAt b p.toNat r.toNat else c := by
    by_cases hc : c > allocatedAt b p.toNat r.toNat
    · rw [if_pos hc]; exact min_eq_right (le_of_lt hc)
    · rw [if_neg hc]; exact min_eq_left (not_lt.mp hc)
  obtain ⟨_, hm⟩ := free_moved_of_success hb'
  rw [← hmin] at hm
  have hA := hm.allocated p.toNat r.toNat
  have hV := hm.available r.toNat
  have hN := hm.required p.toNat r.toNat
  simp only [and_self, if_true] at hA hV hN
  have hle : min c (allocatedAt b p.toNat r.toNat) ≤ allocatedAt b p.toNat r.toNat :=
    min_le_right _ _
  refine ⟨b', hb', by rw [hA]; ring, by rw [hV]; ring, by rw [hN]; ring, by rw [hA]; omega, ?_⟩
  intro hc
  have hzero : allocatedAt b' p.toNat r.toNat = 0 := by
    rw [hA, min_eq_right (le_of_lt hc)]; ring
  refine ⟨hzero, ?_⟩
  have hp1' : p < b'.processCount := by rw [hm.processCount]; exact hp1
  have hr1' : r < b'.availableResourcesCount := by rw [hm.resourcesCount]; exact hr1
  obtain ⟨b'', hb''⟩ := free_total hwf' c hp0 hp1' hr0 hr1'
  rcases free_cases hb'' with ⟨hrc, _⟩ |
    ⟨_, _, _, _, _, a, alloc2, avail2, need2, ha2, h1, h2, h3, hbe⟩
  · omega
  · have ha0 : a = 0 := by
      rw [← hzero]; exact (cell_of_rd2N ha2).symm
    have hk : (if c > a then a else c) = 0 := by
      rw [ha0, if_pos (by omega)]
    rw [hk] at h1 h2 h3
    have hp : p.toNat < b'.processCount.toNat := by omega
    have hr : r.toNat < b'.availableResourcesCount.toNat := by omega
    obtain ⟨n, hn⟩ := hwf'.required.get hp hr
    have hlt : r.toNat < b'.availableResourcesArray.length := by
      have := hwf'.available; omega
    have e1 := upd2N_same (f := fun v => v - 0) ha2 (by simp)
    have e2 := updN_same (f := fun v => v + 0) (List.getElem?_eq_getElem hlt) (by simp)
    have e3 := upd2N_same (f := fun v => v + 0) hn (by simp)
    rw [e1] at h1
    rw [e2] at h2
    rw [e3] at h3
    rw [hb'', hbe, ← Option.some.inj h1, ← Option.some.inj h2, ← Option.some.inj h3]

theorem freeAllStep_cases {b b' : BankerData} {p i : Nat} (h : freeAllStep p i b = some b') :
    ∃ a avail1 need1 alloc1, rd2N b.resourcesAllocatedMatrix p i = some a ∧
      updN b.availableResourcesArray i (fun v => v + a) = some avail1 ∧
      upd2N b.resourcesRequiredMatrix p i (fun v => v + a) = some need1 ∧
      upd2N b.resourcesAllocatedMatrix p i (fun _ => 0) = some alloc1 ∧
      b' = { b with availableResourcesArray := avail1
                    resourcesRequiredMatrix := need1
                    resourcesAllocatedMatrix := alloc1 } := by
  unfold freeAllStep at h
  cases ha : rd2N b.resourcesAllocatedMatrix p i with
  | none => simp [ha] at h
  | some a =>
  simp only [ha] at h
  cases h1 : updN b.availableResourcesArray i (fun v => v + a) with
  | none => simp [h1] at h
  | some avail1 =>
  cases h2 : upd2N b.resourcesRequiredMatrix p i (fun v => v + a) with
  | none => simp [h1, h2] at h
  | some need1 =>
  cases h3 : upd2N b.resourcesAllocatedMatrix p i (fun _ => 0) with
  | none => simp [h1, h2, h3] at h
  | some alloc1 =>
  simp only [h1, h2, h3, Option.some.injEq] at h
  exact ⟨a, avail1, need1, alloc1, rfl, h1, h2, rfl, h.symm⟩

theorem freeAllStep_wellFormed {b b' : BankerData} {p i : Nat}
    (h : freeAllStep p i b = some b') (hwf : WellFormed b) : WellFormed b' := by
  obtain ⟨a, avail1, need1, alloc1, _, h1, h2, h3, rfl⟩ := freeAllStep_cases h
  exact wellFormed_of_upd hwf h3 h1 h2

theorem freeAllStep_rows {b b' : BankerData} {p i q : Nat}
    (h : freeAllStep p i b = some b') (hq : q ≠ p) :
    b'.resourcesAllocatedMatrix[q]? = b.resourcesAllocatedMatrix[q]? ∧
    b'.resourcesRequiredMatrix[q]? = b.resourcesRequiredMatrix[q]? := by
  obtain ⟨a, avail1, need1, alloc1, _, _, h2, h3, rfl⟩ := freeAllStep_cases h
  exact ⟨upd2N_row_ne h3 hq, upd2N_row_ne h2 hq⟩

theorem freeAllStep_total {b : BankerData} (hwf : WellFormed b) {p i : Nat}
    (hp : p < b.processCount.toNat) (hi : i < b.availableResourcesCount.toNat) :
    ∃ b', freeAllStep p i b = some b' := by
  obtain ⟨a, ha⟩ := hwf.allocated.get hp hi
  obtain ⟨avail1, h1⟩ := updN_total (a := b.availableResourcesArray) (fun v => v + a) (i := i)
    (by have := hwf.available; omega)
  obtain ⟨need1, h2⟩ := upd2N_total (fun v => v + a) (hwf.required p hp i hi)
  obtain ⟨alloc1, h3⟩ := upd2N_total (fun _ => (0 : Int)) (hwf.allocated p hp i hi)
  unfold freeAllStep
  simp only [ha, h1, h2, h3]
  exact ⟨_, rfl⟩

theorem FreeAllInv.start {b : BankerData} (hwf : WellFormed b) (p : Nat) :
    FreeAllInv b p 0 b :=
  ⟨hwf, rfl, rfl, rfl, rfl, fun _ _ => ⟨rfl, rfl⟩, fun s => by simp, fun s => by simp,
    fun s => by simp⟩

theorem FreeAllInv.step {b t t' : BankerData} {p k : Nat} (hinv : FreeAllInv b p k t)
    (h : freeAllStep p k t = some t') : FreeAllInv b p (k + 1) t' := by
  have hm := freeAllStep_moved h
  have hrows := fun q hq => freeAllStep_rows (q := q) h hq
  have hak : allocatedAt t p k = allocatedAt b p k := by
    rw [hinv.allocated k, if_neg (lt_irrefl k)]
  refine ⟨freeAllStep_wellFormed h hinv.wellFormed, by rw [hm.processCount, hinv.processCount],
    by rw [hm.resourcesCount, hinv.resourcesCount], by rw [hm.capacity, hinv.capacity],
    by rw [hm.demand, hinv.demand], ?_, ?_, ?_, ?_⟩
  · intro q hq
    exact ⟨by rw [(hrows q hq).1, (hinv.rows q hq).1], by rw [(hrows q hq).2, (hinv.rows q hq).2]⟩
  · intro s
    rw [hm.allocated p s, hinv.allocated s, hak]
    by_cases hs : s = k
    · subst hs; simp
    · by_cases hlt : s < k
      · have : s < k + 1 := by omega
        simp [hs, hlt, this]
      · have : ¬ s < k + 1 := by omega
        simp [hs, hlt, this]
  · intro s
    rw [hm.available s, hinv.available s, hak]
    by_cases hs : s = k
    · subst hs; simp
    · by_cases hlt : s < k
      · have : s < k + 1 := by omega
        simp [hs, hlt, this]
      · have : ¬ s < k + 1 := by omega
        simp [hs, hlt, this]
  · intro s
    rw [hm.required p s, hinv.required s, hak]
    by_cases hs : s = k
    · subst hs; simp
    · by_cases hlt : s < k
      · have : s < k + 1 := by omega
        simp [hs, hlt, this]
      · have : ¬ s < k + 1 := by omega
        simp [hs, hlt, this]

/-- On a well-formed ledger the loop of `Banker_freeAllResources` runs to its end. -/
theorem freeAll_loop {b : BankerData} (hwf : WellFormed b) {p : Nat}
    (hp : p < b.processCount.toNat) :
    ∃ b', forRange (freeAllStep p) b.availableResourcesCount.toNat 0 b = some b' ∧
      FreeAllInv b p b.availableResourcesCount.toNat b' := by
  have hstep : ∀ j t, 0 ≤ j → j < 0 + b.availableResourcesCount.toNat → FreeAllInv b p j t →
      ∃ t', freeAllStep p j t = some t' ∧ FreeAllInv b p (j + 1) t' := by
    intro j t _ hj ht
    obtain ⟨t', ht'⟩ := freeAllStep_total ht.wellFormed (p := p) (i := j)
      (by rw [ht.processCount]; exact hp) (by rw [ht.resourcesCount]; omega)
    exact ⟨t', ht', ht.step ht'⟩
  obtain ⟨b', h1, h2⟩ := forRange_total (freeAllStep p) (FreeAllInv b p)
    b.availableResourcesCount.toNat 0 b hstep (FreeAllInv.start hwf p)
  refine ⟨b', h1, ?_⟩
  simpa using h2

/-- C13. On a well-formed ledger: for `p` outside `[0, P)` the call
`Banker_freeAllResources (p)` returns -1 and the ledger it was given; otherwise it
returns 1 and a ledger in which, for every resource type `r`, `Allocated[p][r]` is 0,
`Available[r]` is the old `Available[r]` plus the old `Allocated[p][r]` and
`Need[p][r]` is the old `Need[p][r]` plus the old `Allocated[p][r]`, while the rows of
every other process in Allocated and Need, the Maximum matrix, the capacities and
both counts are as before. -/
theorem freeAllResources_effect (b : BankerData) (p : Int) (hwf : WellFormed b) :
    ((p < 0 ∨ b.processCount ≤ p) → Banker_freeAllResources b p = some (-1, b)) ∧
    (0 ≤ p → p < b.processCount →
      ∃ b', Banker_freeAllResources b p = some (1, b') ∧
        (∀ r, r < b.availableResourcesCount.toNat →
          allocatedAt b' p.toNat r = 0 ∧
          availableAt b' r = availableAt b r + allocatedAt b p.toNat r ∧
          needAt b' p.toNat r = needAt b p.toNat r + allocatedAt b p.toNat r) ∧
        (∀ q, q ≠ p.toNat →
          b'.resourcesAllocatedMatrix[q]? = b.resourcesAllocatedMatrix[q]? ∧
          b'.resourcesRequiredMatrix[q]? = b.resourcesRequiredMatrix[q]?) ∧
        b'.resourcesDemandMatrix = b.resourcesDemandMatrix ∧
        b'.maxResourcesArray = b.maxResourcesArray ∧
        b'.processCount = b.processCount ∧
        b'.availableResourcesCount = b.availableResourcesCount) := by
  refine ⟨?_, ?_⟩
  · intro hbad
    have hbad' : p < 0 ∨ p > b.processCount - 1 := by omega
    unfold Banker_freeAllResources
    rw [if_pos hbad']
  · intro hp0 hp1
    have hp : p.toNat < b.processCount.toNat := by omega
    obtain ⟨b', hloop, hinv⟩ := freeAll_loop hwf hp
    have hok : ¬ (p < 0 ∨ p > b.processCount - 1) := by omega
    refine ⟨b', ?_, ?_, hinv.rows, hinv.demand, hinv.capacity, hinv.processCount,
      hinv.resourcesCount⟩
    · unfold Banker_freeAllResources
      rw [if_neg hok]
      simp only [hloop]
    · intro r hr
      exact ⟨by rw [hinv.allocated r, if_pos hr], by rw [hinv.available r, if_pos hr],
        by rw [hinv.required r, if_pos hr]⟩

theorem hasCells_replicate (P R : Nat) : HasCells (List.replicate P (List.replicate R 0)) P R := by
  intro p hp r hr
  simp [rd2N, List.getElem?_replicate, hp, hr]

theorem sumStep_total (alloc : List (List Int)) (r n : Nat) (acc : Int)
    (h : ∀ p, p < n → (rd2N alloc p r).isSome = true) :
    ∃ sum, forRange (sumStep alloc r) n 0 acc = some sum := by
  have hstep : ∀ j t, 0 ≤ j → j < 0 + n → True → ∃ t', sumStep alloc r j t = some t' ∧ True := by
    intro j t _ hj _
    obtain ⟨a, ha⟩ := Option.isSome_iff_exists.mp (h j (by omega))
    exact ⟨t + a, by simp [sumStep, ha], trivial⟩
  obtain ⟨s, hs, _⟩ := forRange_total (sumStep alloc r) (fun _ _ => True) n 0 acc hstep trivial
  exact ⟨s, hs⟩

theorem availStep_total (P : Int) (cap : List Int) (alloc : List (List Int)) (n : Nat)
    (w0 : List Int) (hcap : n ≤ cap.length) (hw : n ≤ w0.length)
    (halloc : HasCells alloc P.toNat n) :
    ∃ avail, forRange (availStep P cap alloc) n 0 w0 = some avail ∧ avail.length = w0.length := by
  have hstep : ∀ j t, 0 ≤ j → j < 0 + n → t.length = w0.length →
      ∃ t', availStep P cap alloc j t = some t' ∧ t'.length = w0.length := by
    intro j t _ hj ht
    obtain ⟨sum, hsum⟩ := sumStep_total alloc j P.toNat 0 (fun p hp => halloc p hp j (by omega))
    have hjc : j < cap.length := by omega
    obtain ⟨t', ht'⟩ := updN_total (a := t) (fun _ => cap[j] - sum) (i := j) (by omega)
    refine ⟨t', ?_, by rw [updN_length ht', ht]⟩
    unfold availStep
    simp only [hsum, List.getElem?_eq_getElem hjc, ht']
  obtain ⟨s, h1, h2⟩ := forRange_total (availStep P cap alloc) (fun _ t => t.length = w0.length)
    n 0 w0 hstep rfl
  exact ⟨s, h1, h2⟩

theorem needRow_total (R : Int) (dem alloc : List (List Int)) (n : Nat)
    (m0 : List (List Int)) (hdem : HasCells dem n R.toNat) (halloc : HasCells alloc n R.toNat)
    (hm : HasCells m0 n R.toNat) :
    ∃ need, forRange (needRow R dem alloc) n 0 m0 = some need ∧ HasCells need n R.toNat := by
  have hstep : ∀ j t, 0 ≤ j → j < 0 + n → HasCells t n R.toNat →
      ∃ t', needRow R dem alloc j t = some t' ∧ HasCells t' n R.toNat := by
    intro j t _ hj ht
    have hj' : j < n := by omega
    have hinner : ∀ i u, 0 ≤ i → i < 0 + R.toNat → HasCells u n R.toNat →
        ∃ u', needStep dem alloc j i u = some u' ∧ HasCells u' n R.toNat := by
      intro i u _ hi hu
      have hi' : i < R.toNat := by omega
      obtain ⟨d, hd⟩ := hdem.get hj' hi'
      obtain ⟨a, ha⟩ := halloc.get hj' hi'
      obtain ⟨u', hu'⟩ := upd2N_total (fun _ => d - a) (hu j hj' i hi')
      refine ⟨u', ?_, upd2N_hasCells hu' hu⟩
      unfold needStep
      simp only [hd, ha, hu']
    obtain ⟨t', h1, h2⟩ := forRange_total (needStep dem alloc j)
      (fun _ u => HasCells u n R.toNat) R.toNat 0 t hinner ht
    exact ⟨t', h1, h2⟩
  obtain ⟨s, h1, h2⟩ := forRange_total (needRow R dem alloc)
    (fun _ t => HasCells t n R.toNat) n 0 m0 hstep hm
  exact ⟨s, h1, h2⟩

/-- The loop of lines 40-43 ends without fault only when the row-pointer array
holds `processCount` pointers, and then it leaves `processCount` rows of
`availableResourcesCount` cells. -/
theorem allocRow_loop (sz : Sizes) (R P : Int) (n : Nat) (rows : List (List Int))
    (h : forRange (allocRow sz R P) n 0 [] = some rows) :
    rows = List.replicate n (List.replicate R.toNat 0) ∧
    n * sz.sizeofPtr ≤ P.toNat * sz.sizeofInt := by
  have := forRange_inv (allocRow sz R P)
    (fun k m => m = List.replicate k (List.replicate R.toNat 0) ∧
      k * sz.sizeofPtr ≤ P.toNat * sz.sizeofInt)
    n 0 [] rows ?_ ?_ h
  · simpa using this
  · intro j t t' _ _ ht hb
    unfold allocRow at hb
    by_cases hfit : (j + 1) * sz.sizeofPtr ≤ P.toNat * sz.sizeofInt
    · rw [if_pos hfit] at hb
      refine ⟨?_, hfit⟩
      rw [← Option.some.inj hb, ht.1, List.replicate_succ']
    · rw [if_neg hfit] at hb
      exact Option.noConfusion hb
  · simp

theorem allocRow_total (sz : Sizes) (R P : Int) (n : Nat)
    (hfit : n * sz.sizeofPtr ≤ P.toNat * sz.sizeofInt) :
    ∃ rows, forRange (allocRow sz R P) n 0 [] = some rows := by
  have hstep : ∀ j (t : List (List Int)), 0 ≤ j → j < 0 + n → True →
      ∃ t', allocRow sz R P j t = some t' ∧ True := by
    intro j t _ hj _
    have h1 : (j + 1) * sz.sizeofPtr ≤ n * sz.sizeofPtr :=
      Nat.mul_le_mul_right _ (by omega)
    unfold allocRow
    rw [if_pos (le_trans h1 hfit)]
    exact ⟨_, rfl, trivial⟩
  obtain ⟨rows, h, _⟩ := forRange_total (allocRow sz R P) (fun _ _ => True) n 0 [] hstep trivial
  exact ⟨rows, h⟩

/-- Where pointers are wider than an `int`, `Banker_init` for at least one resource
type and at least one process does not return: storing the last row pointer is out
of bounds (if nothing faulted before). -/
theorem init_faults_where_pointers_wider (sz : Sizes) (data : BankerData) (R P : Int)
    (cap : List Int) (dem alloc : List (List Int)) (hR : 1 ≤ R) (hP : 1 ≤ P)
    (hsz : sz.sizeofInt < sz.sizeofPtr) :
    Banker_init sz data R P cap dem alloc = none := by
  cases h : Banker_init sz data R P cap dem alloc with
  | none => rfl
  | some res =>
    obtain ⟨rc, b0⟩ := res
    exfalso
    rcases init_cases h with ⟨_, _, hlt⟩ | ⟨_, _, _, rows, _, _, hrows, _, _⟩
    · omega
    · have hfit := (allocRow_loop sz R P _ rows hrows).2
      have hpos : 0 < P.toNat := by omega
      have := Nat.mul_lt_mul_of_pos_left hsz hpos
      omega

/-- Where the row-pointer array is large enough (no process, or pointers no wider
than an `int`), `Banker_init` on capacities and matrices that cover `R ≥ 1` resource
types and `P` processes returns 1 and a well-formed ledger. -/
theorem init_total (sz : Sizes) (data : BankerData) (R P : Int) (cap : List Int)
    (dem alloc : List (List Int)) (hR : 1 ≤ R) (hcap : R.toNat ≤ cap.length)
    (hdem : HasCells dem P.toNat R.toNat) (halloc : HasCells alloc P.toNat R.toNat)
    (hfit : P.toNat * sz.sizeofPtr ≤ P.toNat * sz.sizeofInt) :
    ∃ b0, Banker_init sz data R P cap dem alloc = some (1, b0) ∧ WellFormed b0 := by
  obtain ⟨avail, h1, hlen⟩ := availStep_total P cap alloc R.toNat (List.replicate R.toNat 0)
    hcap (by simp) halloc
  obtain ⟨rows, hrows⟩ := allocRow_total sz R P P.toNat hfit
  have hrep := (allocRow_loop sz R P _ rows hrows).1
  obtain ⟨need, h2, hneed⟩ := needRow_total R dem alloc P.toNat rows hdem halloc
    (by rw [hrep]; exact hasCells_replicate _ _)
  have hR' : ¬ R < 1 := by omega
  refine ⟨{ processCount := P, availableResourcesCount := R, maxResourcesArray := cap,
            availableResourcesArray := avail, resourcesDemandMatrix := dem,
            resourcesAllocatedMatrix := alloc, resourcesRequiredMatrix := need }, ?_, ?_⟩
  · unfold Banker_init
    rw [if_neg hR']
    simp only [h1, hrows, h2]
  · exact ⟨by show (0 : Int) ≤ R; omega, hcap, by show R.toNat ≤ avail.length; simp [hlen],
      hdem, halloc, hneed⟩

/-- Where the row-pointer array is large enough, `Banker_init` for `R ≥ 1` resource
types, capacities with a cell for every resource type and matrices with a cell for
every process and resource type returns 1 and a ledger over the given matrices with
`Available[r] = Capacity[r] - Σ_p InitialAllocated[p][r]` and
`Need[p][r] = Maximum[p][r] - InitialAllocated[p][r]`. -/
theorem init_effect_where_pointers_fit (sz : Sizes) (data : BankerData) (R P : Int)
    (cap : List Int) (dem alloc : List (List Int)) (hR : 1 ≤ R)
    (hcap : R.toNat ≤ cap.length) (hdem : HasCells dem P.toNat R.toNat)
    (halloc : HasCells alloc P.toNat R.toNat)
    (hfit : P.toNat * sz.sizeofPtr ≤ P.toNat * sz.sizeofInt) :
    ∃ b0, Banker_init sz data R P cap dem alloc = some (1, b0) ∧
      b0.processCount = P ∧ b0.availableResourcesCount = R ∧
      b0.maxResourcesArray = cap ∧ b0.resourcesDemandMatrix = dem ∧
      b0.resourcesAllocatedMatrix = alloc ∧
      (∀ r, r < R.toNat →
        availableAt b0 r =
          (cap[r]?).getD 0 - ((List.range P.toNat).map (fun p => cell alloc p r)).sum) ∧
      (∀ p, p < P.toNat → ∀ r, r < R.toNat →
        needAt b0 p r = cell dem p r - cell alloc p r) := by
  obtain ⟨b0, hb0, _⟩ := init_total sz data R P cap dem alloc hR hcap hdem halloc hfit
  rcases init_cases hb0 with ⟨hrc, _⟩ | ⟨_, _, avail, rows, need, h1, _, h2, hbe⟩
  · omega
  · refine ⟨b0, hb0, by rw [hbe], by rw [hbe], by rw [hbe], by rw [hbe], by rw [hbe], ?_, ?_⟩
    · intro r hr
      have := availStep_loop P cap alloc _ _ avail h1 r hr
      rw [hbe]
      simp only [availableAt]
      omega
    · intro p hp r hr
      have := needRow_loop R dem alloc _ _ need h2 p hp r hr
      rw [hbe]
      exact this

/-- C14 fails on the code. On a machine with 4-byte `int` and 8-byte pointers
`Banker_init` on the classic instance (3 resource types, 5 processes, capacities
(10,5,7)) does not return 1: the row-pointer array of line 39 has `5 * 4` bytes and
the stores of lines 40-43 need `5 * 8`. Where pointers are 4 bytes it returns 1 with
Available (3,3,2) and Need [[7,4,3],[1,2,2],[6,0,0],[0,1,1],[4,3,1]]. -/
theorem init_row_pointer_array_too_small :
    Banker_init lp64 blank 3 5 [10, 5, 7] [[7, 5, 3], [3, 2, 2], [9, 0, 2], [2, 2, 2], [4, 3, 3]]
        [[0, 1, 0], [2, 0, 0], [3, 0, 2], [2, 1, 1], [0, 0, 2]] = none ∧
    Banker_init ilp32 blank 3 5 [10, 5, 7] [[7, 5, 3], [3, 2, 2], [9, 0, 2], [2, 2, 2], [4, 3, 3]]
        [[0, 1, 0], [2, 0, 0], [3, 0, 2], [2, 1, 1], [0, 0, 2]] =
      some (1, { processCount := 5
                 availableResourcesCount := 3
                 maxResourcesArray := [10, 5, 7]
                 availableResourcesArray := [3, 3, 2]
                 resourcesDemandMatrix := [[7, 5, 3], [3, 2, 2], [9, 0, 2], [2, 2, 2], [4, 3, 3]]
                 resourcesAllocatedMatrix :=
                   [[0, 1, 0], [2, 0, 0], [3, 0, 2], [2, 1, 1], [0, 0, 2]]
                 resourcesRequiredMatrix :=
                   [[7, 4, 3], [1, 2, 2], [6, 0, 0], [0, 1, 1], [4, 3, 1]] }) := by
  decide

/-- More passes allowed do not change the result of the simulation loop. -/
theorem simulation_fuel_succ (b : BankerData) :
    ∀ (fuel : Nat) (s t : Sim), simulation b fuel s = some t →
      simulation b (fuel + 1) s = some t := by
  intro fuel
  induction fuel with
  | zero =>
    intro s t h
    simp only [simulation] at h
    by_cases hr : s.remainingProcesses > 0
    · simp [hr] at h
    · rw [if_neg hr] at h
      simp only [simulation, if_neg hr]
      exact h
  | succ fuel ih =>
    intro s t h
    rw [simulation] at h
    rw [simulation]
    by_cases hr : s.remainingProcesses > 0
    · rw [if_pos hr] at h ⊢
      cases hp : forRange (simulateProcess b) b.processCount.toNat 0
          { s with isStatePseudoSafe := 0 } with
      | none => simp [hp] at h
      | some s' =>
        simp only [hp] at h ⊢
        by_cases hflag : s'.isStatePseudoSafe ≠ 1
        · rw [if_pos hflag] at h ⊢
          exact h
        · rw [if_neg hflag] at h ⊢
          exact ih s' t h
    · rw [if_neg hr] at h ⊢
      exact h

theorem simulation_fuel_le (b : BankerData) {n : Nat} {s t : Sim}
    (h : simulation b n s = some t) : ∀ fuel, n ≤ fuel → simulation b fuel s = some t := by
  intro fuel hle
  induction fuel with
  | zero =>
    have : n = 0 := by omega
    subst this; exact h
  | succ fuel ih =>
    by_cases hn : n = fuel + 1
    · subst hn; exact h
    · exact simulation_fuel_succ b fuel s t (ih (by omega))

/-- C19. On a well-formed ledger (any process count, resource count not negative)
`Banker_getSafeSequence` returns: its simulation loop ends within `processCount`
passes, with the same final state whatever larger bound is allowed, and a pass that
starts with the flag cleared either ends with the flag still cleared (the loop
stops) or has finished at least one more process. -/
theorem getSafeSequence_terminates (b : BankerData) (hwf : WellFormed b) :
    (∃ res, Banker_getSafeSequence b = some res) ∧
    (∃ s0 s, simInit b = some s0 ∧
      ∀ fuel, b.processCount.toNat ≤ fuel → simulation b fuel s0 = some s) ∧
    (∀ s t : Sim, forRange (simulateProcess b) b.processCount.toNat 0
        { s with isStatePseudoSafe := 0 } = some t →
      t.isStatePseudoSafe ≠ 1 ∨
        (s.safeSequenceMarker < t.safeSequenceMarker ∧
          t.remainingProcesses < s.remainingProcesses)) := by
  obtain ⟨s0, s, h0, h1, _, _⟩ := getSafeSequence_total hwf
  refine ⟨?_, ⟨s0, s, h0, simulation_fuel_le b h1⟩, ?_⟩
  · unfold Banker_getSafeSequence
    simp only [h0, h1]
    by_cases hr : s.remainingProcesses > 0
    · rw [if_pos hr]; exact ⟨_, rfl⟩
    · rw [if_neg hr]; exact ⟨_, rfl⟩
  · intro s t ht
    rcases pass_outcome rfl ht with ⟨rfl, _⟩ | ⟨_, h2, h3⟩
    · left; simp
    · right; exact ⟨h2, h3⟩

theorem getSafeSequence_terminates_witness :
    ∃ res, Banker_getSafeSequence classic = some res :=
  (getSafeSequence_terminates classic classic_wellFormed).1

theorem sum_nodup_bump (f : Nat → Int) (p : Nat) (c : Prop) [Decidable c] (δ : Int) :
    ∀ l : List Nat, l.Nodup →
      (l.map (fun q => f q + if q = p ∧ c then δ else 0)).sum =
        (l.map f).sum + if p ∈ l ∧ c then δ else 0 := by
  intro l
  induction l with
  | nil => intro _; simp
  | cons x xs ih =>
    intro hnd
    obtain ⟨hx, hxs⟩ := List.nodup_cons.mp hnd
    simp only [List.map_cons, List.sum_cons, ih hxs, List.mem_cons]
    by_cases hc : c
    · by_cases hxp : x = p
      · subst hxp
        simp [hc, hx]
        ring
      · have hpx : ¬ p = x := fun e => hxp e.symm
        by_cases hmem : p ∈ xs
        · simp [hc, hxp, hpx, hmem]
          ring
        · simp [hc, hxp, hpx, hmem]
    · simp [hc]

theorem getD_not_mem_take {σ : List Nat} (hnd : σ.Nodup) {k : Nat} (hk : k < σ.length) :
    σ.getD k 0 ∉ σ.take k := by
  intro hmem
  have hsplit : σ.take k ++ σ.drop k = σ := List.take_append_drop k σ
  have hdrop : σ.getD k 0 ∈ σ.drop k := by
    rw [List.getD_eq_getElem _ _ hk, List.drop_eq_getElem_cons hk]
    exact List.mem_cons_self _ _
  rw [← hsplit] at hnd
  exact (List.nodup_append.mp hnd).2.2 hmem hdrop

/-- A safe order stays safe when instances move from a process back to the
free pool. -/
theorem Moved.safeOrder {b b' : BankerData} {p r : Nat} {δ : Int} (hm : Moved b b' p r δ)
    (hδ : δ ≤ 0) {σ : List Nat} (hnd : σ.Nodup) (hsafe : SafeOrder b σ) : SafeOrder b' σ := by
  intro k hk s hs
  rw [hm.resourcesCount] at hs
  have h0 := hsafe k hk s hs
  have hheld : heldBy b' (σ.take k) s =
      heldBy b (σ.take k) s + if p ∈ σ.take k ∧ s = r then δ else 0 := by
    unfold heldBy
    have : (fun q => allocatedAt b' q s) =
        (fun q => allocatedAt b q s + if q = p ∧ s = r then δ else 0) := by
      funext q; exact hm.allocated q s
    rw [this]
    exact sum_nodup_bump _ p (s = r) δ _ ((List.take_sublist k σ).nodup hnd)
  have hnot := getD_not_mem_take hnd hk
  rw [hm.required, hm.available, hheld]
  by_cases hsr : s = r
  · by_cases hx : σ.getD k 0 = p
    · have hmem : ¬ p ∈ σ.take k := by rw [← hx]; exact hnot
      simp only [hsr, hx, hmem, and_self, and_true, if_true, if_false, false_and] at h0 ⊢
      omega
    · by_cases hmem : p ∈ σ.take k
      · simp only [hsr, hx, hmem, and_self, and_true, if_true, if_false, false_and] at h0 ⊢
        omega
      · simp only [hsr, hx, hmem, and_self, and_true, if_true, if_false, false_and] at h0 ⊢
        omega
  · simp only [hsr, and_false, if_false] at h0 ⊢
    omega

/-- A sequence returned by `Banker_getSafeSequence` lists all processes in a safe
order. -/
theorem returned_safeOrder {b : BankerData} {s : List Nat}
    (h : Banker_getSafeSequence b = some (some s)) :
    s.Perm (List.range b.processCount.toNat) ∧ SafeOrder b s := by
  obtain ⟨s0, st, h0, h1, hres⟩ := getSafeSequence_cases h
  rcases hres with ⟨_, hnone⟩ | ⟨hrem, hsome⟩
  · exact Option.noConfusion hnone
  · have hinv : SimInv b st := simulation_inv b _ s0 st h1 (simInit_inv h0)
    have hs : s = st.safeSequence := Option.some.inj hsome
    have hmark : st.safeSequenceMarker = b.processCount.toNat := by
      have h1 := hinv.remaining
      have h2 := hinv.markerLe
      omega
    have hdone : st.finishedOrder = s := by
      rw [hs, Sim.finishedOrder, hmark, ← hinv.seqLen, List.take_length]
    have hlt : ∀ x ∈ s, x < b.processCount.toNat := by
      intro x hx
      rw [← hdone] at hx
      have := getElem?_lt_of_some ((hinv.finished x).mp hx)
      rw [hinv.finLen] at this
      exact this
    refine ⟨perm_range_of_nodup (hdone ▸ hinv.nodup) hlt (by rw [hs, hinv.seqLen]), ?_⟩
    rw [← hdone]
    exact hinv.safe

/-- A well-formed ledger with no negative allocation and a safe order of all its
processes gets a sequence from `Banker_getSafeSequence`. -/
theorem safeOrder_returned {b : BankerData} (hwf : WellFormed b)
    (hnn : ∀ p, p < b.processCount.toNat → ∀ r, r < b.availableResourcesCount.toNat →
      0 ≤ allocatedAt b p r)
    {σ : List Nat} (hperm : σ.Perm (List.range b.processCount.toNat))
    (hsafe : SafeOrder b σ) : ∃ s, Banker_getSafeSequence b = some (some s) := by
  obtain ⟨s0, st, h0, h1, hinv, hend⟩ := getSafeSequence_total hwf
  rcases hend with hdone | ⟨hrem, hskip⟩
  · refine ⟨st.safeSequence, ?_⟩
    unfold Banker_getSafeSequence
    simp only [h0, h1]
    rw [if_neg (by omega)]
  · exact (stuck_contradiction hwf hinv hrem hskip hnn σ hperm hsafe).elim

/-- A move of `δ ≤ 0` instances that leaves the cell non-negative keeps all
allocations non-negative. -/
theorem Moved.noNegative {b b' : BankerData} {p r : Nat} {δ : Int} (hm : Moved b b' p r δ)
    (hcell : 0 ≤ allocatedAt b p r + δ) (hnn : NoNegativeAllocation b) :
    NoNegativeAllocation b' := by
  intro q hq s hs
  rw [hm.processCount] at hq
  rw [hm.resourcesCount] at hs
  rw [hm.allocated q s]
  by_cases hqs : q = p ∧ s = r
  · rw [if_pos hqs, hqs.1, hqs.2]; exact hcell
  · rw [if_neg hqs, add_zero]; exact hnn q hq s hs

/-- After the loop of `Banker_freeAllResources` an order that was safe is still
safe and no allocation is negative. -/
theorem freeAll_loop_safe {b b' : BankerData} {p : Nat} (hp : p < b.processCount.toNat)
    (hnn : NoNegativeAllocation b) {σ : List Nat} (hnd : σ.Nodup) (hsafe : SafeOrder b σ)
    (h : forRange (freeAllStep p) b.availableResourcesCount.toNat 0 b = some b') :
    SafeOrder b' σ ∧ NoNegativeAllocation b' := by
  have := forRange_inv (freeAllStep p)
    (fun _ t => (SafeOrder t σ ∧ NoNegativeAllocation t) ∧
      t.processCount = b.processCount ∧ t.availableResourcesCount = b.availableResourcesCount)
    b.availableResourcesCount.toNat 0 b b' ?_ ⟨⟨hsafe, hnn⟩, rfl, rfl⟩ h
  · exact this.1
  · intro j t t' _ hj ⟨⟨hs, hn⟩, hP, hR⟩ hstep
    have hm := freeAllStep_moved hstep
    have hcell : 0 ≤ allocatedAt t p j := hn p (by rw [hP]; exact hp) j (by rw [hR]; omega)
    exact ⟨⟨hm.safeOrder (by omega) hnd hs, hm.noNegative (by omega) hn⟩,
      by rw [hm.processCount, hP], by rw [hm.resourcesCount, hR]⟩

/-- C20. Releases preserve safety: on a well-formed ledger with no negative
allocation on which `Banker_getSafeSequence` returns a sequence,
`Banker_freeResource (p, r, count)` with valid indices and `count ≥ 0`, and
`Banker_freeAllResources (p)` with a valid index, return success and leave a ledger
on which `Banker_getSafeSequence` returns a sequence again. -/
theorem release_preserves_safety (b : BankerData) (hwf : WellFormed b)
    (hnn : ∀ p, p < b.processCount.toNat → ∀ r, r < b.availableResourcesCount.toNat →
      0 ≤ allocatedAt b p r)
    (s : List Nat) (hs : Banker_getSafeSequence b = some (some s)) :
    (∀ p r c : Int, 0 ≤ p → p < b.processCount → 0 ≤ r → r < b.availableResourcesCount →
      0 ≤ c →
      ∃ b' s', Banker_freeResource b p r c = some (1, b') ∧
        Banker_getSafeSequence b' = some (some s')) ∧
    (∀ p : Int, 0 ≤ p → p < b.processCount →
      ∃ b' s', Banker_freeAllResources b p = some (1, b') ∧
        Banker_getSafeSequence b' = some (some s')) := by
  obtain ⟨hperm, hsafe⟩ := returned_safeOrder hs
  have hnd : s.Nodup := hperm.nodup_iff.mpr (List.nodup_range _)
  refine ⟨?_, ?_⟩
  · intro p r c hp0 hp1 hr0 hr1 hc
    obtain ⟨b', hb'⟩ := free_total hwf c hp0 hp1 hr0 hr1
    have hwf' := free_wellFormed hb' hwf
    obtain ⟨_, hm⟩ := free_moved_of_success hb'
    have hcell : 0 ≤ allocatedAt b p.toNat r.toNat := hnn _ (by omega) _ (by omega)
    have hδ : -(if c > allocatedAt b p.toNat r.toNat then allocatedAt b p.toNat r.toNat else c)
        ≤ 0 := by
      split_ifs <;> omega
    have hcell' : 0 ≤ allocatedAt b p.toNat r.toNat +
        -(if c > allocatedAt b p.toNat r.toNat then allocatedAt b p.toNat r.toNat else c) := by
      split_ifs <;> omega
    have hperm' : s.Perm (List.range b'.processCount.toNat) := by
      rw [hm.processCount]; exact hperm
    obtain ⟨s', hs'⟩ := safeOrder_returned hwf' (hm.noNegative hcell' hnn) hperm'
      (hm.safeOrder hδ hnd hsafe)
    exact ⟨b', s', hb', hs'⟩
  · intro p hp0 hp1
    have hp : p.toNat < b.processCount.toNat := by omega
    obtain ⟨b', hloop, hinv⟩ := freeAll_loop hwf hp
    obtain ⟨hsafe', hnn'⟩ := freeAll_loop_safe hp hnn hnd hsafe hloop
    have hperm' : s.Perm (List.range b'.processCount.toNat) := by
      rw [hinv.processCount]; exact hperm
    obtain ⟨s', hs'⟩ := safeOrder_returned hinv.wellFormed hnn' hperm' hsafe'
    have hok : ¬ (p < 0 ∨ p > b.processCount - 1) := by omega
    refine ⟨b', s', ?_, hs'⟩
    unfold Banker_freeAllResources
    rw [if_neg hok]
    simp only [hloop]

theorem classicGranted_wellFormed : WellFormed classicGranted :=
  ⟨by decide, by decide, by decide, by unfold HasCells; decide, by unfold HasCells; decide,
    by unfold HasCells; decide⟩

theorem freeResource_clamped_witness :
    ∃ b', Banker_freeResource classic 3 0 5 = some (1, b') ∧ allocatedAt b' 3 0 = 0 ∧
      Banker_freeResource b' 3 0 5 = some (1, b') := by
  obtain ⟨b', h, _, _, _, _, h5⟩ :=
    freeResource_clamped classic 3 0 5 classic_wellFormed (by decide) (by decide) (by decide)
      (by decide) (by decide)
  exact ⟨b', h, (h5 (by decide)).1, (h5 (by decide)).2⟩

/-- C12 fails on the code. The ledger `classic` satisfies conservation, the need
equation and `0 ≤ Allocated ≤ Maximum`; `Banker_freeResource (0, 1, -1)` returns
success there and lowers `Available[1]` from 3 to 2. -/
theorem freeResource_negative_count_lowers_available :
    Conserved [10, 5, 7] classic ∧ NeedEquation classic ∧
    (∀ p, p < 5 → ∀ r, r < 3 →
      0 ≤ allocatedAt classic p r ∧ allocatedAt classic p r ≤ maximumAt classic p r) ∧
    Banker_freeResource classic 0 1 (-1) = some (1, classicNegativeRelease) ∧
    availableAt classicNegativeRelease 1 < availableAt classic 1 := by
  refine ⟨by unfold Conserved; decide, by unfold NeedEquation; decide, by decide, by decide,
    by decide⟩

theorem freeAllResources_effect_witness :
    Banker_freeAllResources classicGranted 7 = some (-1, classicGranted) ∧
    ∃ b', Banker_freeAllResources classicGranted 1 = some (1, b') ∧
      allocatedAt b' 1 0 = 0 ∧ availableAt b' 0 = 5 := by
  have h := freeAllResources_effect classicGranted 1 classicGranted_wellFormed
  obtain ⟨b', hb', hcells, _⟩ := h.2 (by decide) (by decide)
  refine ⟨(freeAllResources_effect classicGranted 7 classicGranted_wellFormed).1 (by decide),
    b', hb', (hcells 0 (by decide)).1, ?_⟩
  rw [(hcells 0 (by decide)).2.1]
  decide

/-- C15 as stated fails on the code: with one resource type of declared capacity 0
`Banker_init` does not return -1 but (on a machine whose pointers are no wider
than an `int`) builds a ledger and returns 1. -/
theorem init_accepts_capacity_below_one :
    ¬ (∀ (sz : Sizes) (data : BankerData) (R P : Int) (cap : List Int)
        (dem alloc : List (List Int)),
        (∃ r, r < R.toNat ∧ (cap[r]?).getD 0 < 1) →
        Banker_init sz data R P cap dem alloc = some (-1, data)) := by
  intro h
  have h1 := h ilp32 blank 1 1 [0] [[0]] [[0]] ⟨0, by decide, by decide⟩
  revert h1
  decide

/-- C15, amended. `Banker_init` returns -1, leaving the structure as it was,
for every input whose number of resource types `availableResourcesCount` is less
than 1, and only for those: whenever it returns, the code is -1 exactly when
`availableResourcesCount < 1`, whatever the declared capacities are. -/
theorem init_fails_iff_no_resource_type (sz : Sizes) (data : BankerData) (R P : Int)
    (cap : List Int) (dem alloc : List (List Int)) :
    (R < 1 → Banker_init sz data R P cap dem alloc = some (-1, data)) ∧
    (∀ rc b0, Banker_init sz data R P cap dem alloc = some (rc, b0) → (rc = -1 ↔ R < 1)) := by
  refine ⟨?_, ?_⟩
  · intro hR
    unfold Banker_init
    rw [if_pos hR]
  · intro rc b0 h
    rcases init_cases h with ⟨hrc, _, hR⟩ | ⟨hrc, hR, _⟩
    · exact ⟨fun _ => hR, fun _ => hrc⟩
    · exact ⟨fun e => by omega, fun e => by omega⟩

theorem init_fails_iff_no_resource_type_witness :
    Banker_init lp64 blank 0 5 [10, 5, 7] classic.resourcesDemandMatrix
        classic.resourcesAllocatedMatrix = some (-1, blank) ∧
    (((1 : Int) = -1) ↔ ((1 : Int) < 1)) :=
  ⟨(init_fails_iff_no_resource_type lp64 blank 0 5 [10, 5, 7] classic.resourcesDemandMatrix
      classic.resourcesAllocatedMatrix).1 (by decide),
    (init_fails_iff_no_resource_type ilp32 blank 1 1 [0] [[0]] [[0]]).2 1
      { processCount := 1, availableResourcesCount := 1, maxResourcesArray := [0],
        availableResourcesArray := [0], resourcesDemandMatrix := [[0]],
        resourcesAllocatedMatrix := [[0]], resourcesRequiredMatrix := [[0]] } (by decide)⟩

/-- C16. On the ledger with capacities (10,5,7), Maximum
[[7,5,3],[3,2,2],[9,0,2],[2,2,2],[4,3,3]], Allocated
[[0,1,0],[2,0,0],[3,0,2],[2,1,1],[0,0,2]] and the Available (3,3,2) and Need
[[7,4,3],[1,2,2],[6,0,0],[0,1,1],[4,3,1]] derived from them,
`Banker_getSafeSequence` returns the order [1,3,4,0,2]. -/
theorem classic_safe_sequence :
    Banker_getSafeSequence
      { processCount := 5
        availableResourcesCount := 3
        maxResourcesArray := [10, 5, 7]
        availableResourcesArray := [3, 3, 2]
        resourcesDemandMatrix := [[7, 5, 3], [3, 2, 2], [9, 0, 2], [2, 2, 2], [4, 3, 3]]
        resourcesAllocatedMatrix := [[0, 1, 0], [2, 0, 0], [3, 0, 2], [2, 1, 1], [0, 0, 2]]
        resourcesRequiredMatrix := [[7, 4, 3], [1, 2, 2], [6, 0, 0], [0, 1, 1], [4, 3, 1]] } =
      some (some [1, 3, 4, 0, 2]) := by
  decide

/-- C17. On the classic ledger right after initialisation,
`Banker_requestResource (1, 0, 1)` returns success and yields Available (2,3,2),
`Allocated[1]` = (3,0,0) and `Need[1]` = (0,2,2), and `Banker_getSafeSequence` on
that ledger returns a sequence. -/
theorem classic_first_request_granted :
    Banker_requestResource classic 1 0 1 = some (1, classicGranted) ∧
    classicGranted.availableResourcesArray = [2, 3, 2] ∧
    classicGranted.resourcesAllocatedMatrix[1]? = some [3, 0, 0] ∧
    classicGranted.resourcesRequiredMatrix[1]? = some [0, 2, 2] ∧
    Banker_getSafeSequence classicGranted = some (some [1, 3, 4, 0, 2]) := by
  decide

/-- C18 as stated fails on the code: after the granted request (1, 0, 1) on the
classic ledger, `Banker_requestResource (4, 1, 2)` is not rejected with -4. -/
theorem classic_second_request_not_rejected :
    Banker_requestResource classic 1 0 1 = some (1, classicGranted) ∧
    Banker_requestResource classicGranted 4 1 2 ≠ some (-4, classicGranted) := by
  decide

/-- C18, amended. After the granted request (1, 0, 1) on the classic ledger,
`Banker_requestResource (4, 1, 2)` returns success: it yields Available (2,1,2),
`Allocated[4]` = (0,2,2) and `Need[4]` = (4,1,1), a ledger on which
`Banker_getSafeSequence` returns the order [3,4,1,2,0]. -/
theorem classic_second_request_granted :
    Banker_requestResource classicGranted 4 1 2 = some (1, classicSecondGrant) ∧
    classicSecondGrant.availableResourcesArray = [2, 1, 2] ∧
    classicSecondGrant.resourcesAllocatedMatrix[4]? = some [0, 2, 2] ∧
    classicSecondGrant.resourcesRequiredMatrix[4]? = some [4, 1, 1] ∧
    Banker_getSafeSequence classicSecondGrant = some (some [3, 4, 1, 2, 0]) := by
  decide

theorem release_preserves_safety_witness :
    (∃ b' s', Banker_freeResource classic 3 0 1 = some (1, b') ∧
      Banker_getSafeSequence b' = some (some s')) ∧
    (∃ b' s', Banker_freeAllResources classic 1 = some (1, b') ∧
      Banker_getSafeSequence b' = some (some s')) :=
  have h := release_preserves_safety classic classic_wellFormed (by decide) [1, 3, 4, 0, 2]
    (by decide)
  ⟨h.1 3 0 1 (by decide) (by decide) (by decide) (by decide) (by decide),
    h.2 1 (by decide) (by decide)⟩

end Banker
